import Mathlib

/-!
# Sobel edge filter of `ImageProcessor.cpp`

A shallow embedding of `Java_com_edgedetection_MainActivity_processFrame`
(`app/src/main/cpp/ImageProcessor.cpp`) and the properties of it that the
specification states.

Modelling conventions:

* a byte of a frame buffer is its unsigned value (`unsigned char`, `0..255`);
* `jint`/`int` values are integers, every 32-bit operation of the source is
  followed by `wrap32` (two's complement wrap-around);
* a buffer access outside the buffer is undefined behaviour in the source; the
  embedding makes every access checked and returns `none` for such a call.
  The source has no error result of its own (the function returns `void`).
-/

namespace EdgeDetection

/-- One byte of a frame buffer, read as `unsigned char`. -/
abbrev Byte := Fin 256

/-- A Java `byte[]` as seen through `GetByteArrayElements`: its contents, and
the fact that a Java array length is a 32-bit signed `jsize`. -/
structure JByteArray where
  data : List Byte
  size_lt : data.length < 2147483648

/-- Two's complement wrap-around of an integer to the range of a 32-bit `int`. -/
def wrap32 (z : Int) : Int := (z + 2147483648) % 4294967296 - 2147483648

/-- 32-bit `int` addition. -/
def add32 (a b : Int) : Int := wrap32 (a + b)

/-- 32-bit `int` subtraction. -/
def sub32 (a b : Int) : Int := wrap32 (a - b)

/-- 32-bit `int` multiplication. -/
def mul32 (a b : Int) : Int := wrap32 (a * b)

/-- The read `yData[i]` through an `unsigned char *`, promoted to `int`;
`none` when `i` is outside the buffer. -/
def readU8 (buf : List Byte) (i : Int) : Option Int :=
  if 0 ≤ i then (buf.get? i.toNat).map (fun b => (b.val : Int)) else none

/-- The write `output[i] = v`; `none` when `i` is outside the buffer. -/
def writeU8 (buf : List Byte) (i : Int) (v : Byte) : Option (List Byte) :=
  if 0 ≤ i ∧ i.toNat < buf.length then some (buf.set i.toNat v) else none

/-- The call `memcpy(dst, src, n)` with an `int` count `n` (converted to
`size_t`, so a negative count is a count beyond any array): the first `n`
bytes of `dst` are replaced by the first `n` bytes of `src`; `none` when the
copy runs past the end of either buffer. -/
def memcpy (dst src : List Byte) (n : Int) : Option (List Byte) :=
  if 0 ≤ n ∧ n.toNat ≤ src.length ∧ n.toNat ≤ dst.length then
    some (src.take n.toNat ++ dst.drop n.toNat)
  else none

/-- The sum of line 43-45 on the six samples read there, in 32-bit arithmetic. -/
def sobelGx (tl tr ml mr bl br : Int) : Int :=
  add32 (add32 (add32 (add32 (add32 (mul32 (-1) tl) (mul32 1 tr))
    (mul32 (-2) ml)) (mul32 2 mr)) (mul32 (-1) bl)) (mul32 1 br)

/-- The sum of line 47-48 on the six samples read there, in 32-bit arithmetic. -/
def sobelGy (tl tm tr bl bm br : Int) : Int :=
  add32 (add32 (add32 (add32 (add32 (mul32 (-1) tl) (mul32 (-2) tm))
    (mul32 (-1) tr)) (mul32 1 bl)) (mul32 2 bm)) (mul32 1 br)

/-- The index expression `r*width + c` of the source, in 32-bit arithmetic. -/
def cell32 (width r c : Int) : Int := add32 (mul32 r width) c

/-- The value `gx` of lines 43-45 at pixel `(x, y)`; `none` when a read is
outside `yData`. -/
def gxAt (yData : List Byte) (width x y : Int) : Option Int := do
  let tl ← readU8 yData (cell32 width (sub32 y 1) (sub32 x 1))
  let tr ← readU8 yData (cell32 width (sub32 y 1) (add32 x 1))
  let ml ← readU8 yData (cell32 width y (sub32 x 1))
  let mr ← readU8 yData (cell32 width y (add32 x 1))
  let bl ← readU8 yData (cell32 width (add32 y 1) (sub32 x 1))
  let br ← readU8 yData (cell32 width (add32 y 1) (add32 x 1))
  pure (sobelGx tl tr ml mr bl br)

/-- The value `gy` of lines 47-48 at pixel `(x, y)`; `none` when a read is
outside `yData`. -/
def gyAt (yData : List Byte) (width x y : Int) : Option Int := do
  let tl ← readU8 yData (cell32 width (sub32 y 1) (sub32 x 1))
  let tm ← readU8 yData (cell32 width (sub32 y 1) x)
  let tr ← readU8 yData (cell32 width (sub32 y 1) (add32 x 1))
  let bl ← readU8 yData (cell32 width (add32 y 1) (sub32 x 1))
  let bm ← readU8 yData (cell32 width (add32 y 1) x)
  let br ← readU8 yData (cell32 width (add32 y 1) (add32 x 1))
  pure (sobelGy tl tm tr bl bm br)

/-- The value `(int)sqrt(s)` of line 50: `s` is converted to `double`, whose
square root is correctly rounded, and the cast truncates; for the integers
that occur (`0 ≤ s ≤ 2*1020*1020`, see `sumsq32_exact`) this is the integer
floor square root. -/
def magnitudeOf (s : Int) : Int := (Nat.sqrt s.toNat : Int)

/-- The byte `magnitude > 128 ? 255 : 0` of line 51. -/
def threshold (magnitude : Int) : Byte := if magnitude > 128 then 255 else 0

/-- The body of the inner loop (lines 40-51) at pixel `(x, y)`. -/
def pixelStep (yData : List Byte) (width x y : Int) (output : List Byte) :
    Option (List Byte) := do
  let idx := cell32 width y x
  let gx ← gxAt yData width x y
  let gy ← gyAt yData width x y
  let magnitude := magnitudeOf (add32 (mul32 gx gx) (mul32 gy gy))
  writeU8 output idx (threshold magnitude)

/-- The inner loop `for (x = ...; x < width - 1; x++)` of line 39, from the
current `x` with `k` iterations left. -/
def colLoop (yData : List Byte) (width y : Int) :
    Nat → Int → List Byte → Option (List Byte)
  | 0, _, output => some output
  | k + 1, x, output =>
    (pixelStep yData width x y output).bind (colLoop yData width y k (x + 1))

/-- The outer loop `for (y = ...; y < height - 1; y++)` of line 38, from the
current `y` with `k` iterations left; each iteration runs the inner loop from
`x = 1`, which makes `width - 1 - 1` iterations when that is positive. -/
def rowLoop (yData : List Byte) (width : Int) :
    Nat → Int → List Byte → Option (List Byte)
  | 0, _, output => some output
  | k + 1, y, output =>
    (colLoop yData width y (sub32 width 1 - 1).toNat 1 output).bind
      (rowLoop yData width k (y + 1))

/-- The JNI function of the source, the native method `processFrame` of
`MainActivity`: the contents of `outputFrame` after the call, or `none` when
the call accesses a buffer out of bounds. The logging calls have no effect on
the buffers and nothing in the `try` block throws. -/
def Java_com_edgedetection_MainActivity_processFrame
    (inputFrame : JByteArray) (width height : Int)
    (outputFrame : JByteArray) (mode : Int) : Option (List Byte) :=
  let ySize := mul32 width height
  if mode = 1 then
    (memcpy outputFrame.data inputFrame.data (add32 ySize (Int.tdiv ySize 2))).bind
      (rowLoop inputFrame.data width (sub32 height 1 - 1).toNat 1)
  else
    memcpy outputFrame.data inputFrame.data (add32 ySize (Int.tdiv ySize 2))

/-- The luma sample at `(x, y)`, at linear index `y*width + x` of the frame
(specification, section 3), as an integer `0..255`. -/
def lumaAt (frame : List Byte) (width x y : Nat) : Int :=
  ((frame.getD (y * width + x) 0).val : Int)

/-- The horizontal gradient as the specification writes it (section 4.1):
`gx = -TL + TR - 2*ML + 2*MR - BL + BR` over the neighbours of `(x, y)`. -/
def specGx (frame : List Byte) (width x y : Nat) : Int :=
  - lumaAt frame width (x - 1) (y - 1) + lumaAt frame width (x + 1) (y - 1)
  - 2 * lumaAt frame width (x - 1) y + 2 * lumaAt frame width (x + 1) y
  - lumaAt frame width (x - 1) (y + 1) + lumaAt frame width (x + 1) (y + 1)

/-- The vertical gradient as the specification writes it (section 4.1):
`gy = -TL - 2*TM - TR + BL + 2*BM + BR` over the neighbours of `(x, y)`. -/
def specGy (frame : List Byte) (width x y : Nat) : Int :=
  - lumaAt frame width (x - 1) (y - 1) - 2 * lumaAt frame width x (y - 1)
  - lumaAt frame width (x + 1) (y - 1) + lumaAt frame width (x - 1) (y + 1)
  + 2 * lumaAt frame width x (y + 1) + lumaAt frame width (x + 1) (y + 1)

/-- The output luma of an interior pixel as the specification writes it:
`255` if `floor(sqrt(gx*gx + gy*gy)) > 128`, else `0`. -/
def specEdge (frame : List Byte) (width x y : Nat) : Byte :=
  if Nat.sqrt (specGx frame width x y * specGx frame width x y
      + specGy frame width x y * specGy frame width x y).toNat > 128
  then 255 else 0

/-- A valid frame of the specification's data model: positive dimensions and
a buffer of `width*height*3/2` bytes. -/
def ValidFrame (frame : JByteArray) (width height : Nat) : Prop :=
  0 < width ∧ 0 < height ∧ frame.data.length = width * height * 3 / 2

instance (frame : JByteArray) (width height : Nat) :
    Decidable (ValidFrame frame width height) := by
  unfold ValidFrame; infer_instance

/-- An interior pixel: `1 ≤ x ≤ width-2` and `1 ≤ y ≤ height-2`. -/
def Interior (width height x y : Nat) : Prop :=
  1 ≤ x ∧ x + 2 ≤ width ∧ 1 ≤ y ∧ y + 2 ≤ height

instance (width height x y : Nat) : Decidable (Interior width height x y) := by
  unfold Interior; infer_instance

/-- The byte the specification puts at linear luma index `i`, the pixel
`(i % width, i / width)`. -/
def edgeAtIndex (frame : List Byte) (width i : Nat) : Byte :=
  specEdge frame width (i % width) (i / width)

/-- The writes `out[j] = f j` for the indices `j` of `js`, in turn. -/
def paint (f : Nat → Byte) (js : List Nat) (out : List Byte) : List Byte :=
  js.foldl (fun o j => o.set j (f j)) out

/-- The linear indices of the pixels that the inner loop visits in row `y`,
in the order of the loop. -/
def rowIdx (width y : Nat) : List Nat :=
  (List.range' 1 (width - 2)).map (fun x => y * width + x)

/-- The linear indices of the interior pixels, in the row-major order of the
two loops. -/
def interiorIdx (width height : Nat) : List Nat :=
  (List.range' 1 (height - 2)).flatMap (rowIdx width)

/-- A 3x3 frame (9 luma bytes, 4 chroma bytes) with a bright bottom row. -/
def sampleFrame : JByteArray :=
  ⟨[10, 20, 30, 40, 50, 60, 200, 210, 220, 1, 2, 3, 4], by decide⟩

/-- A 3x3 output buffer (13 bytes) with arbitrary previous contents. -/
def sampleOutput : JByteArray :=
  ⟨[9, 9, 9, 9, 9, 9, 9, 9, 9, 9, 9, 9, 9], by decide⟩

/-- A 2x3 frame (6 luma bytes, 3 chroma bytes): it has no interior pixel. -/
def narrowFrame : JByteArray := ⟨[10, 200, 30, 220, 50, 240, 1, 2, 3], by decide⟩

/-- A 2x3 output buffer (9 bytes) with arbitrary previous contents. -/
def narrowOutput : JByteArray := ⟨[9, 9, 9, 9, 9, 9, 9, 9, 9], by decide⟩

/-- A 3x3 frame whose luma samples are all `77`. -/
def flatFrame : JByteArray :=
  ⟨[77, 77, 77, 77, 77, 77, 77, 77, 77, 1, 2, 3, 4], by decide⟩

/-- The luma plane is a checkerboard: the sample at `(x, y)` is `even` when
`x + y` is even and `odd` otherwise. -/
def Checkerboard (frame : List Byte) (width height : Nat) (even odd : Int) : Prop :=
  ∀ x, x < width → ∀ y, y < height →
    lumaAt frame width x y = if (x + y) % 2 = 0 then even else odd

instance (frame : List Byte) (width height : Nat) (even odd : Int) :
    Decidable (Checkerboard frame width height even odd) := by
  unfold Checkerboard; infer_instance

/-- The luma plane of a 4x4 frame is `0` except in the column `x = 2`, where
it is `255`. -/
def BrightColumn (frame : List Byte) : Prop :=
  ∀ x, x < 4 → ∀ y, y < 4 → lumaAt frame 4 x y = if x = 2 then 255 else 0

instance (frame : List Byte) : Decidable (BrightColumn frame) := by
  unfold BrightColumn; infer_instance

/-- A 3x3 checkerboard frame, `255` where `x + y` is even. -/
def checkerFrame : JByteArray :=
  ⟨[255, 0, 255, 0, 255, 0, 255, 0, 255, 1, 2, 3, 4], by decide⟩

/-- A 4x4 frame with the bright column `x = 2` and 8 chroma bytes. -/
def columnFrame : JByteArray :=
  ⟨[0, 0, 255, 0, 0, 0, 255, 0, 0, 0, 255, 0, 0, 0, 255, 0, 1, 2, 3, 4, 5, 6, 7, 8],
    by decide⟩

/-- A 4x4 output buffer (24 bytes) with arbitrary previous contents. -/
def columnOutput : JByteArray :=
  ⟨[9, 9, 9, 9, 9, 9, 9, 9, 9, 9, 9, 9, 9, 9, 9, 9, 9, 9, 9, 9, 9, 9, 9, 9], by decide⟩

/-- The byte of `edgeAtIndex` with the threshold test on the squared
magnitude, `gx*gx + gy*gy >= 129*129`, in place of the square root. -/
def edgeAtIndexSq (frame : List Byte) (width i : Nat) : Byte :=
  if 16641 ≤ specGx frame width (i % width) (i / width)
        * specGx frame width (i % width) (i / width)
      + specGy frame width (i % width) (i / width)
        * specGy frame width (i % width) (i / width)
  then 255 else 0

/-- The count `ySize + ySize / 2` that lines 35 and 56 pass to `memcpy`, with
`ySize = width * height` of line 27, in 32-bit arithmetic. -/
def frameBytes (width height : Int) : Int :=
  add32 (mul32 width height) (Int.tdiv (mul32 width height) 2)

/-- The caller contract of the specification (sections 4.1 and 7) is violated:
a dimension is not positive, or a buffer does not have `width*height*3/2`
bytes. -/
def ContractViolated (input : JByteArray) (width height : Int)
    (output : JByteArray) : Prop :=
  width ≤ 0 ∨ height ≤ 0 ∨ (input.data.length : Int) ≠ width * height * 3 / 2
    ∨ (output.data.length : Int) ≠ width * height * 3 / 2

instance (input : JByteArray) (width height : Int) (output : JByteArray) :
    Decidable (ContractViolated input width height output) := by
  unfold ContractViolated; infer_instance

/-- A 4-byte input buffer, one byte more than a 1x2 frame holds. -/
def longInput : JByteArray := ⟨[1, 2, 3, 4], by decide⟩

/-- A 4-byte output buffer, one byte more than a 1x2 frame holds. -/
def longOutput : JByteArray := ⟨[0, 0, 0, 0], by decide⟩

/-- The interior pixels `(x, y)` in the row-major order of the two loops of
lines 38 and 39. -/
def rowMajor (width height : Nat) : List (Nat × Nat) :=
  (List.range' 1 (height - 2)).flatMap
    (fun y => (List.range' 1 (width - 2)).map (fun x => (x, y)))

/-- The loop body of the source run over the pixels `(x, y)` of a list, in
the order of the list, each write applied to the current output in turn. -/
def scanPixels (yData : List Byte) (width : Int) :
    List (Nat × Nat) → List Byte → Option (List Byte)
  | [], output => some output
  | p :: ps, output =>
    (pixelStep yData width (p.1 : Int) (p.2 : Int) output).bind
      (scanPixels yData width ps)

/-- A 32-bit `int` result with signed overflow made an error: `none` when the
exact value does not fit. -/
def checked32 (z : Int) : Option Int :=
  if -2147483648 ≤ z ∧ z < 2147483648 then some z else none

/-- The sum of lines 43-45 with every product and every partial sum checked
for overflow. -/
def sobelGxChecked (tl tr ml mr bl br : Int) : Option Int :=
  (checked32 (-1 * tl)).bind fun p1 =>
  (checked32 (1 * tr)).bind fun p2 =>
  (checked32 (p1 + p2)).bind fun s1 =>
  (checked32 (-2 * ml)).bind fun p3 =>
  (checked32 (s1 + p3)).bind fun s2 =>
  (checked32 (2 * mr)).bind fun p4 =>
  (checked32 (s2 + p4)).bind fun s3 =>
  (checked32 (-1 * bl)).bind fun p5 =>
  (checked32 (s3 + p5)).bind fun s4 =>
  (checked32 (1 * br)).bind fun p6 =>
  checked32 (s4 + p6)

/-- The sum of lines 47-48 with every product and every partial sum checked
for overflow. -/
def sobelGyChecked (tl tm tr bl bm br : Int) : Option Int :=
  (checked32 (-1 * tl)).bind fun p1 =>
  (checked32 (-2 * tm)).bind fun p2 =>
  (checked32 (p1 + p2)).bind fun s1 =>
  (checked32 (-1 * tr)).bind fun p3 =>
  (checked32 (s1 + p3)).bind fun s2 =>
  (checked32 (1 * bl)).bind fun p4 =>
  (checked32 (s2 + p4)).bind fun s3 =>
  (checked32 (2 * bm)).bind fun p5 =>
  (checked32 (s3 + p5)).bind fun s4 =>
  (checked32 (1 * br)).bind fun p6 =>
  checked32 (s4 + p6)

/-- The sum `gx*gx + gy*gy` of line 50 with both products and the sum checked
for overflow. -/
def sumSqChecked (gx gy : Int) : Option Int :=
  (checked32 (gx * gx)).bind fun a =>
  (checked32 (gy * gy)).bind fun b =>
  checked32 (a + b)

/-- The argument `gx*gx + gy*gy` of `sqrt` on line 50, as the source computes
it in 32-bit arithmetic from the eight neighbour samples. -/
def gradientSumSq (tl tm tr ml mr bl bm br : Byte) : Int :=
  add32
    (mul32 (sobelGx tl.val tr.val ml.val mr.val bl.val br.val)
      (sobelGx tl.val tr.val ml.val mr.val bl.val br.val))
    (mul32 (sobelGy tl.val tm.val tr.val bl.val bm.val br.val)
      (sobelGy tl.val tm.val tr.val bl.val bm.val br.val))

/-- Two luma planes of width `width` agree on the eight neighbours of the
pixel `(x, y)`; nothing is said about `(x, y)` itself. -/
def AgreeAround (f g : List Byte) (width x y : Nat) : Prop :=
  lumaAt f width (x - 1) (y - 1) = lumaAt g width (x - 1) (y - 1) ∧
  lumaAt f width x (y - 1) = lumaAt g width x (y - 1) ∧
  lumaAt f width (x + 1) (y - 1) = lumaAt g width (x + 1) (y - 1) ∧
  lumaAt f width (x - 1) y = lumaAt g width (x - 1) y ∧
  lumaAt f width (x + 1) y = lumaAt g width (x + 1) y ∧
  lumaAt f width (x - 1) (y + 1) = lumaAt g width (x - 1) (y + 1) ∧
  lumaAt f width x (y + 1) = lumaAt g width x (y + 1) ∧
  lumaAt f width (x + 1) (y + 1) = lumaAt g width (x + 1) (y + 1)

instance (f g : List Byte) (width x y : Nat) : Decidable (AgreeAround f g width x y) := by
  unfold AgreeAround; infer_instance

/-- The frame `sampleFrame` with another centre sample and other chroma. -/
def sampleFrameAlt : JByteArray :=
  ⟨[10, 20, 30, 40, 250, 60, 200, 210, 220, 5, 6, 7, 8], by decide⟩

/-- The byte `v + c`, reduced modulo 256 as a store to `unsigned char` does. -/
def addToByte (c : Int) (v : Byte) : Byte :=
  ⟨(((v.val : Int) + c) % 256).toNat, by omega⟩

/-- The buffer with `c` added to each of its first `n` bytes (the luma plane
when `n = width*height`). -/
def shiftLuma (c : Int) (n : Nat) (data : List Byte) : List Byte :=
  (data.take n).map (addToByte c) ++ data.drop n

/-- The frame with `c` added to each of its first `n` bytes. -/
def shiftFrame (c : Int) (n : Nat) (frame : JByteArray) : JByteArray :=
  ⟨shiftLuma c n frame.data, by
    have h := frame.size_lt
    unfold shiftLuma
    rw [List.length_append, List.length_map, List.length_take, List.length_drop]
    omega⟩

/-- The horizontal Sobel sum of the specification (section 4.1) as an exact
integer: `gx = -TL + TR - 2*ML + 2*MR - BL + BR`. -/
def gxExact (tl tr ml mr bl br : Int) : Int :=
  - tl + tr - 2 * ml + 2 * mr - bl + br

/-- The vertical Sobel sum of the specification (section 4.1) as an exact
integer: `gy = -TL - 2*TM - TR + BL + 2*BM + BR`. -/
def gyExact (tl tm tr bl bm br : Int) : Int :=
  - tl - 2 * tm - tr + bl + 2 * bm + br

/-! ## Arithmetic of the 32-bit operations -/

theorem wrap32_of_range (z : Int) (h1 : -2147483648 ≤ z) (h2 : z < 2147483648) :
    wrap32 z = z := by
  unfold wrap32; omega

theorem cell_lt (W H r c : Nat) (hc : c < W) (hr : r < H) : r * W + c < W * H := by
  have h1 : (r + 1) * W ≤ H * W := Nat.mul_le_mul_right W hr
  have h2 : (r + 1) * W = r * W + W := by ring
  have h3 : H * W = W * H := Nat.mul_comm H W
  omega

theorem cell32_cast (W H r c : Nat) (hc : c < W) (hr : r < H)
    (hWH : W * H < 2147483648) :
    cell32 (W : Int) (r : Int) (c : Int) = ((r * W + c : Nat) : Int) := by
  have hlt := cell_lt W H r c hc hr
  have h0 : r * W ≤ r * W + c := Nat.le_add_right _ _
  unfold cell32 add32 mul32
  have e1 : ((r : Int) * (W : Int)) = ((r * W : Nat) : Int) := by push_cast; ring
  have e2 : wrap32 ((r * W : Nat) : Int) = ((r * W : Nat) : Int) :=
    wrap32_of_range _ (by omega) (by omega)
  rw [e1, e2, wrap32_of_range _ (by omega) (by omega)]
  push_cast; ring

theorem sub32_one_cast (n : Nat) (h1 : 1 ≤ n) (h2 : n < 2147483648) :
    sub32 (n : Int) 1 = ((n - 1 : Nat) : Int) := by
  unfold sub32
  rw [wrap32_of_range _ (by omega) (by omega)]
  omega

theorem add32_one_cast (n : Nat) (h2 : n + 1 < 2147483648) :
    add32 (n : Int) 1 = ((n + 1 : Nat) : Int) := by
  unfold add32
  rw [wrap32_of_range _ (by omega) (by omega)]
  omega

theorem readU8_cast (buf : List Byte) (n : Nat) (h : n < buf.length) :
    readU8 buf (n : Int) = some ((buf.getD n 0).val : Int) := by
  unfold readU8
  simp [List.getD, List.get?_eq_getElem?, List.getElem?_eq_getElem h]

theorem writeU8_cast (buf : List Byte) (n : Nat) (v : Byte) (h : n < buf.length) :
    writeU8 buf (n : Int) v = some (buf.set n v) := by
  unfold writeU8
  simp [h]

theorem sobelGx_exact (tl tr ml mr bl br : Int)
    (h1 : 0 ≤ tl ∧ tl ≤ 255) (h2 : 0 ≤ tr ∧ tr ≤ 255) (h3 : 0 ≤ ml ∧ ml ≤ 255)
    (h4 : 0 ≤ mr ∧ mr ≤ 255) (h5 : 0 ≤ bl ∧ bl ≤ 255) (h6 : 0 ≤ br ∧ br ≤ 255) :
    sobelGx tl tr ml mr bl br = - tl + tr - 2 * ml + 2 * mr - bl + br := by
  unfold sobelGx add32 mul32 wrap32; omega

theorem sobelGy_exact (tl tm tr bl bm br : Int)
    (h1 : 0 ≤ tl ∧ tl ≤ 255) (h2 : 0 ≤ tm ∧ tm ≤ 255) (h3 : 0 ≤ tr ∧ tr ≤ 255)
    (h4 : 0 ≤ bl ∧ bl ≤ 255) (h5 : 0 ≤ bm ∧ bm ≤ 255) (h6 : 0 ≤ br ∧ br ≤ 255) :
    sobelGy tl tm tr bl bm br = - tl - 2 * tm - tr + bl + 2 * bm + br := by
  unfold sobelGy add32 mul32 wrap32; omega

theorem lumaAt_range (frame : List Byte) (width x y : Nat) :
    0 ≤ lumaAt frame width x y ∧ lumaAt frame width x y ≤ 255 := by
  unfold lumaAt
  have := (frame.getD (y * width + x) 0).isLt
  omega

theorem dims_lt (W H : Nat) (hW : 0 < W) (hH : 0 < H) (hWH : W * H < 2147483648) :
    W < 2147483648 ∧ H < 2147483648 := by
  have h1 : W * 1 ≤ W * H := Nat.mul_le_mul_left W hH
  have h2 : 1 * H ≤ W * H := Nat.mul_le_mul_right H hW
  omega

theorem readU8_cell (yData : List Byte) (W H r c : Nat) (hc : c < W) (hr : r < H)
    (hWH : W * H < 2147483648) (hy : W * H ≤ yData.length) :
    readU8 yData (cell32 (W : Int) (r : Int) (c : Int)) = some (lumaAt yData W c r) := by
  have hlt := cell_lt W H r c hc hr
  rw [cell32_cast W H r c hc hr hWH, readU8_cast yData _ (by omega)]
  rfl

theorem gxAt_interior (yData : List Byte) (W H X Y : Nat)
    (hin : Interior W H X Y) (hWH : W * H < 2147483648) (hy : W * H ≤ yData.length) :
    gxAt yData (W : Int) (X : Int) (Y : Int) = some (specGx yData W X Y) := by
  obtain ⟨hx1, hx2, hy1, hy2⟩ := hin
  obtain ⟨hW, hH⟩ := dims_lt W H (by omega) (by omega) hWH
  unfold gxAt
  rw [sub32_one_cast Y hy1 (by omega), sub32_one_cast X hx1 (by omega),
    add32_one_cast X (by omega), add32_one_cast Y (by omega)]
  rw [readU8_cell yData W H (Y - 1) (X - 1) (by omega) (by omega) hWH hy,
    readU8_cell yData W H (Y - 1) (X + 1) (by omega) (by omega) hWH hy,
    readU8_cell yData W H Y (X - 1) (by omega) (by omega) hWH hy,
    readU8_cell yData W H Y (X + 1) (by omega) (by omega) hWH hy,
    readU8_cell yData W H (Y + 1) (X - 1) (by omega) (by omega) hWH hy,
    readU8_cell yData W H (Y + 1) (X + 1) (by omega) (by omega) hWH hy]
  simp only [Option.bind_eq_bind, Option.some_bind, Option.pure_def]
  rw [sobelGx_exact _ _ _ _ _ _ (lumaAt_range _ _ _ _) (lumaAt_range _ _ _ _)
    (lumaAt_range _ _ _ _) (lumaAt_range _ _ _ _) (lumaAt_range _ _ _ _)
    (lumaAt_range _ _ _ _)]
  rfl

theorem gyAt_interior (yData : List Byte) (W H X Y : Nat)
    (hin : Interior W H X Y) (hWH : W * H < 2147483648) (hy : W * H ≤ yData.length) :
    gyAt yData (W : Int) (X : Int) (Y : Int) = some (specGy yData W X Y) := by
  obtain ⟨hx1, hx2, hy1, hy2⟩ := hin
  obtain ⟨hW, hH⟩ := dims_lt W H (by omega) (by omega) hWH
  unfold gyAt
  rw [sub32_one_cast Y hy1 (by omega), sub32_one_cast X hx1 (by omega),
    add32_one_cast X (by omega), add32_one_cast Y (by omega)]
  rw [readU8_cell yData W H (Y - 1) (X - 1) (by omega) (by omega) hWH hy,
    readU8_cell yData W H (Y - 1) X (by omega) (by omega) hWH hy,
    readU8_cell yData W H (Y - 1) (X + 1) (by omega) (by omega) hWH hy,
    readU8_cell yData W H (Y + 1) (X - 1) (by omega) (by omega) hWH hy,
    readU8_cell yData W H (Y + 1) X (by omega) (by omega) hWH hy,
    readU8_cell yData W H (Y + 1) (X + 1) (by omega) (by omega) hWH hy]
  simp only [Option.bind_eq_bind, Option.some_bind, Option.pure_def]
  rw [sobelGy_exact _ _ _ _ _ _ (lumaAt_range _ _ _ _) (lumaAt_range _ _ _ _)
    (lumaAt_range _ _ _ _) (lumaAt_range _ _ _ _) (lumaAt_range _ _ _ _)
    (lumaAt_range _ _ _ _)]
  rfl

theorem specGx_range (frame : List Byte) (width x y : Nat) :
    -1020 ≤ specGx frame width x y ∧ specGx frame width x y ≤ 1020 := by
  have h1 := lumaAt_range frame width (x - 1) (y - 1)
  have h2 := lumaAt_range frame width (x + 1) (y - 1)
  have h3 := lumaAt_range frame width (x - 1) y
  have h4 := lumaAt_range frame width (x + 1) y
  have h5 := lumaAt_range frame width (x - 1) (y + 1)
  have h6 := lumaAt_range frame width (x + 1) (y + 1)
  unfold specGx; omega

theorem specGy_range (frame : List Byte) (width x y : Nat) :
    -1020 ≤ specGy frame width x y ∧ specGy frame width x y ≤ 1020 := by
  have h1 := lumaAt_range frame width (x - 1) (y - 1)
  have h2 := lumaAt_range frame width x (y - 1)
  have h3 := lumaAt_range frame width (x + 1) (y - 1)
  have h4 := lumaAt_range frame width (x - 1) (y + 1)
  have h5 := lumaAt_range frame width x (y + 1)
  have h6 := lumaAt_range frame width (x + 1) (y + 1)
  unfold specGy; omega

theorem square_range (g : Int) (h : -1020 ≤ g ∧ g ≤ 1020) :
    0 ≤ g * g ∧ g * g ≤ 1040400 := by
  constructor
  · exact mul_self_nonneg g
  · nlinarith [h.1, h.2]

theorem sumsq32_exact (gx gy : Int) (hx : -1020 ≤ gx ∧ gx ≤ 1020)
    (hy : -1020 ≤ gy ∧ gy ≤ 1020) :
    add32 (mul32 gx gx) (mul32 gy gy) = gx * gx + gy * gy := by
  have h1 := square_range gx hx
  have h2 := square_range gy hy
  unfold add32 mul32
  rw [wrap32_of_range (gx * gx) (by omega) (by omega),
    wrap32_of_range (gy * gy) (by omega) (by omega),
    wrap32_of_range _ (by omega) (by omega)]

theorem threshold_magnitudeOf (s : Int) :
    threshold (magnitudeOf s) = if Nat.sqrt s.toNat > 128 then 255 else 0 := by
  unfold threshold magnitudeOf
  by_cases h : Nat.sqrt s.toNat > 128
  · have h2 : ((Nat.sqrt s.toNat : Nat) : Int) > 128 := by exact_mod_cast h
    rw [if_pos h, if_pos h2]
  · have h2 : ¬ ((Nat.sqrt s.toNat : Nat) : Int) > 128 := by
      intro hc; exact h (by exact_mod_cast hc)
    rw [if_neg h, if_neg h2]

theorem pixelStep_interior (yData output : List Byte) (W H X Y : Nat)
    (hin : Interior W H X Y) (hWH : W * H < 2147483648)
    (hy : W * H ≤ yData.length) (ho : W * H ≤ output.length) :
    pixelStep yData (W : Int) (X : Int) (Y : Int) output
      = some (output.set (Y * W + X) (specEdge yData W X Y)) := by
  have hlt := cell_lt W H Y X (by unfold Interior at hin; omega)
    (by unfold Interior at hin; omega)
  have hs := sumsq32_exact _ _ (specGx_range yData W X Y) (specGy_range yData W X Y)
  have hc := cell32_cast W H Y X (by unfold Interior at hin; omega)
    (by unfold Interior at hin; omega) hWH
  unfold pixelStep specEdge
  rw [gxAt_interior yData W H X Y hin hWH hy, gyAt_interior yData W H X Y hin hWH hy]
  simp only []
  rw [Option.bind_eq_bind, Option.some_bind, Option.some_bind]
  rw [hs, threshold_magnitudeOf, hc, writeU8_cast _ _ _ (by omega)]

/-! ## The two loops as a sequence of writes -/

theorem paint_length (f : Nat → Byte) (js : List Nat) (out : List Byte) :
    (paint f js out).length = out.length := by
  induction js generalizing out with
  | nil => rfl
  | cons j js ih =>
    show (paint f js (out.set j (f j))).length = out.length
    rw [ih, List.length_set]

theorem paint_append (f : Nat → Byte) (js ks : List Nat) (out : List Byte) :
    paint f (js ++ ks) out = paint f ks (paint f js out) := by
  unfold paint
  rw [List.foldl_append]

theorem paint_getElem?_of_not_mem (f : Nat → Byte) (js : List Nat) (out : List Byte)
    (i : Nat) (h : i ∉ js) : (paint f js out)[i]? = out[i]? := by
  induction js generalizing out with
  | nil => rfl
  | cons j js ih =>
    have hj : j ≠ i := fun e => h (e ▸ List.mem_cons_self _ _)
    have hjs : i ∉ js := fun m => h (List.mem_cons_of_mem _ m)
    show (paint f js (out.set j (f j)))[i]? = out[i]?
    rw [ih _ hjs, List.getElem?_set_ne hj]

theorem paint_getElem?_of_mem (f : Nat → Byte) (js : List Nat) (out : List Byte)
    (i : Nat) (h : i ∈ js) (hi : i < out.length) :
    (paint f js out)[i]? = some (f i) := by
  induction js generalizing out with
  | nil => exact absurd h (List.not_mem_nil i)
  | cons j js ih =>
    show (paint f js (out.set j (f j)))[i]? = some (f i)
    by_cases hm : i ∈ js
    · exact ih _ hm (by rw [List.length_set]; exact hi)
    · have hji : j = i := by
        rcases List.mem_cons.mp h with e | m
        · exact e.symm
        · exact absurd m hm
      subst hji
      rw [paint_getElem?_of_not_mem f js _ j hm, List.getElem?_set_self hi]

theorem edgeAtIndex_cell (frame : List Byte) (W X Y : Nat) (hX : X < W) :
    edgeAtIndex frame W (Y * W + X) = specEdge frame W X Y := by
  unfold edgeAtIndex
  have h1 : (Y * W + X) % W = X := by
    rw [Nat.add_comm, Nat.add_mul_mod_self_right, Nat.mod_eq_of_lt hX]
  have h2 : (Y * W + X) / W = Y := by
    rw [Nat.add_comm, Nat.add_mul_div_right _ _ (by omega), Nat.div_eq_of_lt hX,
      Nat.zero_add]
  rw [h1, h2]

theorem colLoop_interior (yData : List Byte) (W H Y : Nat) (hY : 1 ≤ Y ∧ Y + 2 ≤ H)
    (hWH : W * H < 2147483648) (hy : W * H ≤ yData.length) :
    ∀ (k X : Nat) (output : List Byte), 1 ≤ X → (k = 0 ∨ X + k + 1 ≤ W) →
      W * H ≤ output.length →
      colLoop yData (W : Int) (Y : Int) k (X : Int) output
        = some (paint (edgeAtIndex yData W)
            ((List.range' X k).map (fun x => Y * W + x)) output) := by
  intro k
  induction k with
  | zero => intro X output _ _ _; rfl
  | succ k ih =>
    intro X output hX hk ho
    have hk2 : X + (k + 1) + 1 ≤ W := by omega
    have hin : Interior W H X Y := ⟨hX, by omega, hY.1, hY.2⟩
    have hcast : ((X : Int) + 1) = ((X + 1 : Nat) : Int) := by push_cast; rfl
    show (pixelStep yData (W : Int) (X : Int) (Y : Int) output).bind
      (colLoop yData (W : Int) (Y : Int) k ((X : Int) + 1)) = _
    rw [pixelStep_interior yData output W H X Y hin hWH hy ho, Option.some_bind, hcast,
      ih (X + 1) _ (by omega) (by omega) (by rw [List.length_set]; exact ho),
      List.range'_succ, List.map_cons, ← edgeAtIndex_cell yData W X Y (by omega)]
    rfl

theorem innerCount_cast (W : Nat) (hW : 1 ≤ W) (hlt : W < 2147483648) :
    (sub32 (W : Int) 1 - 1).toNat = W - 2 := by
  rw [sub32_one_cast W hW hlt]; omega

theorem rowLoop_interior (yData : List Byte) (W H : Nat) (hW : 1 ≤ W)
    (hWH : W * H < 2147483648) (hy : W * H ≤ yData.length) :
    ∀ (k Y : Nat) (output : List Byte), 1 ≤ Y → (k = 0 ∨ Y + k + 1 ≤ H) →
      W * H ≤ output.length →
      rowLoop yData (W : Int) k (Y : Int) output
        = some (paint (edgeAtIndex yData W)
            ((List.range' Y k).flatMap (rowIdx W)) output) := by
  intro k
  induction k with
  | zero => intro Y output _ _ _; rfl
  | succ k ih =>
    intro Y output hY hk ho
    have hH : 0 < H := by omega
    obtain ⟨hWlt, _⟩ := dims_lt W H hW hH hWH
    have hcast : ((Y : Int) + 1) = ((Y + 1 : Nat) : Int) := by push_cast; rfl
    have hcol := colLoop_interior yData W H Y ⟨hY, by omega⟩ hWH hy (W - 2) 1 output
      (le_refl 1) (by omega) ho
    rw [Nat.cast_one] at hcol
    show (colLoop yData (W : Int) (Y : Int) (sub32 (W : Int) 1 - 1).toNat 1 output).bind
      (rowLoop yData (W : Int) k ((Y : Int) + 1)) = _
    rw [innerCount_cast W hW hWlt, hcol, Option.some_bind, hcast,
      ih (Y + 1) _ (by omega) (by omega) (by rw [paint_length]; exact ho),
      List.range'_succ, List.flatMap_cons, paint_append]
    rfl

theorem frameBytes_cast (W H : Nat) (h : W * H * 3 / 2 < 2147483648) :
    add32 (mul32 (W : Int) (H : Int)) (Int.tdiv (mul32 (W : Int) (H : Int)) 2)
      = ((W * H * 3 / 2 : Nat) : Int) := by
  have e1 : ((W : Int) * (H : Int)) = ((W * H : Nat) : Int) := by push_cast; rfl
  have e2 : wrap32 ((W * H : Nat) : Int) = ((W * H : Nat) : Int) :=
    wrap32_of_range _ (by omega) (by omega)
  have e3 : Int.tdiv ((W * H : Nat) : Int) 2 = ((W * H / 2 : Nat) : Int) :=
    (Int.ofNat_tdiv (W * H) 2).symm
  unfold add32 mul32
  rw [e1, e2, e3, wrap32_of_range _ (by omega) (by omega)]
  omega

theorem memcpy_whole (dst src : List Byte) (n : Nat) (hs : src.length = n)
    (hd : dst.length = n) : memcpy dst src (n : Int) = some src := by
  unfold memcpy
  have h : (0 : Int) ≤ (n : Int) ∧ (n : Int).toNat ≤ src.length
      ∧ (n : Int).toNat ≤ dst.length := by
    refine ⟨by omega, ?_, ?_⟩ <;> simp [hs, hd]
  rw [if_pos h, Int.toNat_ofNat, List.take_of_length_le (by omega),
    List.drop_of_length_le (by omega), List.append_nil]

/-- Pass-through on valid frames: the output is the input. -/
theorem processFrame_pass (input output : JByteArray) (W H : Nat) (mode : Int)
    (hmode : mode ≠ 1) (hin : ValidFrame input W H) (hout : ValidFrame output W H) :
    Java_com_edgedetection_MainActivity_processFrame input (W : Int) (H : Int) output mode
      = some input.data := by
  have hlen := input.size_lt
  unfold Java_com_edgedetection_MainActivity_processFrame
  rw [if_neg hmode, frameBytes_cast W H (by rw [← hin.2.2]; exact hlen)]
  exact memcpy_whole _ _ _ hin.2.2 hout.2.2

/-- Edge detection on valid frames: the output is the input with the
thresholded Sobel value written at every interior pixel. -/
theorem processFrame_edge (input output : JByteArray) (W H : Nat)
    (hin : ValidFrame input W H) (hout : ValidFrame output W H) :
    Java_com_edgedetection_MainActivity_processFrame input (W : Int) (H : Int) output 1
      = some (paint (edgeAtIndex input.data W) (interiorIdx W H) input.data) := by
  have hlen := input.size_lt
  obtain ⟨hW, hH, hsz⟩ := hin
  have hn : W * H * 3 / 2 < 2147483648 := by rw [← hsz]; exact hlen
  have hWH : W * H < 2147483648 := by omega
  have hle : W * H ≤ input.data.length := by omega
  obtain ⟨_, hHlt⟩ := dims_lt W H hW hH hWH
  have hrows : (sub32 (H : Int) 1 - 1).toNat = H - 2 := innerCount_cast H hH hHlt
  have hrow := rowLoop_interior input.data W H hW hWH hle (H - 2) 1 input.data
    (le_refl 1) (by omega) hle
  rw [Nat.cast_one] at hrow
  unfold Java_com_edgedetection_MainActivity_processFrame
  rw [if_pos rfl, frameBytes_cast W H hn, memcpy_whole _ _ _ hsz hout.2.2,
    Option.some_bind, hrows, hrow]
  rfl

theorem cell_mod (W X Y : Nat) (hX : X < W) : (Y * W + X) % W = X := by
  rw [Nat.add_comm, Nat.add_mul_mod_self_right, Nat.mod_eq_of_lt hX]

theorem cell_div (W X Y : Nat) (hX : X < W) : (Y * W + X) / W = Y := by
  rw [Nat.add_comm, Nat.add_mul_div_right _ _ (by omega), Nat.div_eq_of_lt hX,
    Nat.zero_add]

theorem cell_inj (W x y x' y' : Nat) (hx : x < W) (hx' : x' < W)
    (h : y * W + x = y' * W + x') : x = x' ∧ y = y' := by
  constructor
  · rw [← cell_mod W x y hx, h, cell_mod W x' y' hx']
  · rw [← cell_div W x y hx, h, cell_div W x' y' hx']

theorem mem_interiorIdx (W H i : Nat) :
    i ∈ interiorIdx W H ↔ ∃ x y, Interior W H x y ∧ i = y * W + x := by
  unfold interiorIdx rowIdx Interior
  simp only [List.mem_flatMap, List.mem_map, List.mem_range'_1]
  constructor
  · rintro ⟨y, ⟨hy1, hy2⟩, x, ⟨hx1, hx2⟩, rfl⟩
    exact ⟨x, y, ⟨hx1, by omega, hy1, by omega⟩, rfl⟩
  · rintro ⟨x, y, ⟨hx1, hx2, hy1, hy2⟩, rfl⟩
    exact ⟨y, ⟨hy1, by omega⟩, x, ⟨hx1, by omega⟩, rfl⟩

theorem interior_getElem? (input : JByteArray) (W H x y : Nat)
    (hin : ValidFrame input W H) (hxy : Interior W H x y) :
    (paint (edgeAtIndex input.data W) (interiorIdx W H) input.data)[y * W + x]?
      = some (specEdge input.data W x y) := by
  have hlt := cell_lt W H y x (by unfold Interior at hxy; omega)
    (by unfold Interior at hxy; omega)
  have hsz := hin.2.2
  rw [paint_getElem?_of_mem _ _ _ _ ((mem_interiorIdx W H _).mpr ⟨x, y, hxy, rfl⟩)
    (by omega), edgeAtIndex_cell _ _ _ _ (by unfold Interior at hxy; omega)]

/-! ## The claims -/

/-- C1. In EdgeDetect mode (mode 1), for every valid frame and every interior
pixel `(x, y)`, the call returns and the output luma at index `y*width + x` is
`255` if `floor(sqrt(gx*gx + gy*gy)) > 128` and `0` otherwise, with
`gx = -TL + TR - 2*ML + 2*MR - BL + BR` and
`gy = -TL - 2*TM - TR + BL + 2*BM + BR` over the 3x3 neighbours of `(x, y)` in
the input luma plane. -/
theorem c1_interior_luma_is_thresholded_sobel (input output : JByteArray)
    (W H x y : Nat) (hin : ValidFrame input W H) (hout : ValidFrame output W H)
    (hxy : Interior W H x y) :
    ∃ out,
      Java_com_edgedetection_MainActivity_processFrame input (W : Int) (H : Int) output 1
        = some out ∧
      out[y * W + x]? = some (
        let tl := lumaAt input.data W (x - 1) (y - 1)
        let tm := lumaAt input.data W x (y - 1)
        let tr := lumaAt input.data W (x + 1) (y - 1)
        let ml := lumaAt input.data W (x - 1) y
        let mr := lumaAt input.data W (x + 1) y
        let bl := lumaAt input.data W (x - 1) (y + 1)
        let bm := lumaAt input.data W x (y + 1)
        let br := lumaAt input.data W (x + 1) (y + 1)
        let gx := - tl + tr - 2 * ml + 2 * mr - bl + br
        let gy := - tl - 2 * tm - tr + bl + 2 * bm + br
        if Nat.sqrt (gx * gx + gy * gy).toNat > 128 then 255 else 0) := by
  refine ⟨_, processFrame_edge input output W H hin hout, ?_⟩
  rw [interior_getElem? input W H x y hin hxy]
  simp only [specEdge, specGx, specGy]

/-- Witness of C1 on a 3x3 frame, at its one interior pixel. -/
theorem c1_interior_luma_is_thresholded_sobel_witness :
    ValidFrame sampleFrame 3 3 ∧ ValidFrame sampleOutput 3 3 ∧ Interior 3 3 1 1 ∧
    ∃ out,
      Java_com_edgedetection_MainActivity_processFrame
          sampleFrame ((3 : Nat) : Int) ((3 : Nat) : Int) sampleOutput 1
        = some out ∧
      out[1 * 3 + 1]? = some (
        let tl := lumaAt sampleFrame.data 3 (1 - 1) (1 - 1)
        let tm := lumaAt sampleFrame.data 3 1 (1 - 1)
        let tr := lumaAt sampleFrame.data 3 (1 + 1) (1 - 1)
        let ml := lumaAt sampleFrame.data 3 (1 - 1) 1
        let mr := lumaAt sampleFrame.data 3 (1 + 1) 1
        let bl := lumaAt sampleFrame.data 3 (1 - 1) (1 + 1)
        let bm := lumaAt sampleFrame.data 3 1 (1 + 1)
        let br := lumaAt sampleFrame.data 3 (1 + 1) (1 + 1)
        let gx := - tl + tr - 2 * ml + 2 * mr - bl + br
        let gy := - tl - 2 * tm - tr + bl + 2 * bm + br
        if Nat.sqrt (gx * gx + gy * gy).toNat > 128 then 255 else 0) :=
  ⟨by decide, by decide, by decide,
    c1_interior_luma_is_thresholded_sobel sampleFrame sampleOutput 3 3 1 1
      (by decide) (by decide) (by decide)⟩

/-- C2. In PassThrough mode (the source takes every mode other than 1 as
pass-through), for every valid frame with input and output buffers of
`width*height*3/2` bytes, the call returns and the output frame equals the
input frame byte for byte. -/
theorem c2_passthrough_output_equals_input (input output : JByteArray) (W H : Nat)
    (mode : Int) (hmode : mode ≠ 1) (hin : ValidFrame input W H)
    (hout : ValidFrame output W H) :
    Java_com_edgedetection_MainActivity_processFrame input (W : Int) (H : Int) output mode
      = some input.data ∧
      input.data.length = W * H * 3 / 2 :=
  ⟨processFrame_pass input output W H mode hmode hin hout, hin.2.2⟩

/-- Witness of C2 on a 3x3 frame with mode 0. -/
theorem c2_passthrough_output_equals_input_witness :
    (0 : Int) ≠ 1 ∧ ValidFrame sampleFrame 3 3 ∧ ValidFrame sampleOutput 3 3 ∧
    (Java_com_edgedetection_MainActivity_processFrame
        sampleFrame ((3 : Nat) : Int) ((3 : Nat) : Int) sampleOutput 0
        = some sampleFrame.data ∧
      sampleFrame.data.length = 3 * 3 * 3 / 2) :=
  ⟨by decide, by decide, by decide,
    c2_passthrough_output_equals_input sampleFrame sampleOutput 3 3 0
      (by decide) (by decide) (by decide)⟩

theorem not_mem_interiorIdx_of_le (W H i : Nat) (h : W * H ≤ i) :
    i ∉ interiorIdx W H := by
  intro hm
  obtain ⟨x, y, hxy, rfl⟩ := (mem_interiorIdx W H i).mp hm
  have := cell_lt W H y x (by unfold Interior at hxy; omega)
    (by unfold Interior at hxy; omega)
  omega

/-- C3. In EdgeDetect mode, for every valid frame, the call returns and every
byte of the output chroma region (indices `width*height` up to
`width*height*3/2 - 1`) equals the input byte at the same index. -/
theorem c3_edge_chroma_equals_input (input output : JByteArray) (W H : Nat)
    (hin : ValidFrame input W H) (hout : ValidFrame output W H) :
    ∃ out,
      Java_com_edgedetection_MainActivity_processFrame input (W : Int) (H : Int) output 1
        = some out ∧
      out.length = W * H * 3 / 2 ∧
      ∀ i, W * H ≤ i → i < W * H * 3 / 2 → out[i]? = input.data[i]? := by
  refine ⟨_, processFrame_edge input output W H hin hout, ?_, ?_⟩
  · rw [paint_length]; exact hin.2.2
  · intro i hi _
    exact paint_getElem?_of_not_mem _ _ _ i (not_mem_interiorIdx_of_le W H i hi)

/-- Witness of C3 on a 3x3 frame. -/
theorem c3_edge_chroma_equals_input_witness :
    ValidFrame sampleFrame 3 3 ∧ ValidFrame sampleOutput 3 3 ∧
    ∃ out,
      Java_com_edgedetection_MainActivity_processFrame
          sampleFrame ((3 : Nat) : Int) ((3 : Nat) : Int) sampleOutput 1
        = some out ∧
      out.length = 3 * 3 * 3 / 2 ∧
      ∀ i, 3 * 3 ≤ i → i < 3 * 3 * 3 / 2 → out[i]? = sampleFrame.data[i]? :=
  ⟨by decide, by decide,
    c3_edge_chroma_equals_input sampleFrame sampleOutput 3 3 (by decide) (by decide)⟩

/-- C4. In EdgeDetect mode, for every valid frame and every border luma
position `(x, y)` (`x = 0` or `x = width-1` or `y = 0` or `y = height-1`), the
output luma at `y*width + x` equals the input luma at that index. -/
theorem c4_edge_border_luma_equals_input (input output : JByteArray) (W H : Nat)
    (hin : ValidFrame input W H) (hout : ValidFrame output W H) :
    ∃ out,
      Java_com_edgedetection_MainActivity_processFrame input (W : Int) (H : Int) output 1
        = some out ∧
      ∀ x y, x < W → y < H → (x = 0 ∨ x = W - 1 ∨ y = 0 ∨ y = H - 1) →
        out[y * W + x]? = input.data[y * W + x]? ∧
        (input.data[y * W + x]?).isSome = true := by
  refine ⟨_, processFrame_edge input output W H hin hout, ?_⟩
  intro x y hx hy hb
  have hlt := cell_lt W H y x hx hy
  have hsz := hin.2.2
  constructor
  · apply paint_getElem?_of_not_mem
    intro hm
    obtain ⟨x', y', hxy, he⟩ := (mem_interiorIdx W H _).mp hm
    obtain ⟨hx1, hx2, hy1, hy2⟩ := hxy
    obtain ⟨e1, e2⟩ := cell_inj W x y x' y' hx (by omega) he
    omega
  · rw [List.getElem?_eq_getElem (by omega)]; rfl

/-- Witness of C4 on a 3x3 frame. -/
theorem c4_edge_border_luma_equals_input_witness :
    ValidFrame sampleFrame 3 3 ∧ ValidFrame sampleOutput 3 3 ∧
    ∃ out,
      Java_com_edgedetection_MainActivity_processFrame
          sampleFrame ((3 : Nat) : Int) ((3 : Nat) : Int) sampleOutput 1
        = some out ∧
      ∀ x y, x < 3 → y < 3 → (x = 0 ∨ x = 3 - 1 ∨ y = 0 ∨ y = 3 - 1) →
        out[y * 3 + x]? = sampleFrame.data[y * 3 + x]? ∧
        (sampleFrame.data[y * 3 + x]?).isSome = true :=
  ⟨by decide, by decide,
    c4_edge_border_luma_equals_input sampleFrame sampleOutput 3 3 (by decide) (by decide)⟩

/-- C5. In EdgeDetect mode, for every valid frame and every interior pixel,
the output luma value is exactly 0 or exactly 255. -/
theorem c5_edge_interior_luma_is_binary (input output : JByteArray) (W H : Nat)
    (hin : ValidFrame input W H) (hout : ValidFrame output W H) :
    ∃ out,
      Java_com_edgedetection_MainActivity_processFrame input (W : Int) (H : Int) output 1
        = some out ∧
      ∀ x y, Interior W H x y →
        out[y * W + x]? = some 0 ∨ out[y * W + x]? = some 255 := by
  refine ⟨_, processFrame_edge input output W H hin hout, ?_⟩
  intro x y hxy
  rw [interior_getElem? input W H x y hin hxy]
  unfold specEdge
  split
  · exact Or.inr rfl
  · exact Or.inl rfl

/-- Witness of C5 on a 3x3 frame. -/
theorem c5_edge_interior_luma_is_binary_witness :
    ValidFrame sampleFrame 3 3 ∧ ValidFrame sampleOutput 3 3 ∧
    ∃ out,
      Java_com_edgedetection_MainActivity_processFrame
          sampleFrame ((3 : Nat) : Int) ((3 : Nat) : Int) sampleOutput 1
        = some out ∧
      ∀ x y, Interior 3 3 x y →
        out[y * 3 + x]? = some 0 ∨ out[y * 3 + x]? = some 255 :=
  ⟨by decide, by decide,
    c5_edge_interior_luma_is_binary sampleFrame sampleOutput 3 3 (by decide) (by decide)⟩

theorem lumaAt_of_getElem? (frame : List Byte) (W x y : Nat) (v : Byte)
    (h : frame[y * W + x]? = some v) : lumaAt frame W x y = (v.val : Int) := by
  unfold lumaAt
  rw [List.getD_eq_getElem?_getD, h]
  rfl

theorem sqrt_gt_128_iff (n : Nat) : Nat.sqrt n > 128 ↔ 16641 ≤ n := by
  have h : 129 ≤ Nat.sqrt n ↔ 129 * 129 ≤ n := Nat.le_sqrt
  constructor
  · intro h1; have := h.mp h1; omega
  · intro h1; exact h.mpr (by omega)

theorem specEdge_eq_zero (frame : List Byte) (W x y : Nat)
    (hgx : specGx frame W x y = 0) (hgy : specGy frame W x y = 0) :
    specEdge frame W x y = 0 := by
  unfold specEdge
  rw [hgx, hgy, if_neg]
  rw [sqrt_gt_128_iff]
  simp

/-- C6. In EdgeDetect mode, for every valid frame whose luma samples are all
equal to one value `v`, the call returns, the source's `gx` and `gy` are both
`0` at every interior pixel, and the output luma is `0` at every interior
pixel. -/
theorem c6_flat_frame_gives_zero (input output : JByteArray) (W H : Nat) (v : Byte)
    (hin : ValidFrame input W H) (hout : ValidFrame output W H)
    (hflat : ∀ i, i < W * H → input.data[i]? = some v) :
    ∃ out,
      Java_com_edgedetection_MainActivity_processFrame input (W : Int) (H : Int) output 1
        = some out ∧
      ∀ x y, Interior W H x y →
        gxAt input.data (W : Int) (x : Int) (y : Int) = some 0 ∧
        gyAt input.data (W : Int) (x : Int) (y : Int) = some 0 ∧
        out[y * W + x]? = some 0 := by
  have hlen := input.size_lt
  have hsz := hin.2.2
  have hWH : W * H < 2147483648 := by omega
  have hle : W * H ≤ input.data.length := by omega
  have hl : ∀ x y, x < W → y < H → lumaAt input.data W x y = (v.val : Int) :=
    fun x y hx hy => lumaAt_of_getElem? _ _ _ _ _ (hflat _ (cell_lt W H y x hx hy))
  have hg : ∀ x y, Interior W H x y →
      specGx input.data W x y = 0 ∧ specGy input.data W x y = 0 := by
    intro x y ⟨hx1, hx2, hy1, hy2⟩
    unfold specGx specGy
    rw [hl (x - 1) (y - 1) (by omega) (by omega), hl x (y - 1) (by omega) (by omega),
      hl (x + 1) (y - 1) (by omega) (by omega), hl (x - 1) y (by omega) (by omega),
      hl (x + 1) y (by omega) (by omega), hl (x - 1) (y + 1) (by omega) (by omega),
      hl x (y + 1) (by omega) (by omega), hl (x + 1) (y + 1) (by omega) (by omega)]
    constructor <;> omega
  refine ⟨_, processFrame_edge input output W H hin hout, ?_⟩
  intro x y hxy
  obtain ⟨h1, h2⟩ := hg x y hxy
  refine ⟨?_, ?_, ?_⟩
  · rw [gxAt_interior input.data W H x y hxy hWH hle, h1]
  · rw [gyAt_interior input.data W H x y hxy hWH hle, h2]
  · rw [interior_getElem? input W H x y hin hxy, specEdge_eq_zero _ _ _ _ h1 h2]

/-- Witness of C6 on a 3x3 frame of luma 77. -/
theorem c6_flat_frame_gives_zero_witness :
    ValidFrame flatFrame 3 3 ∧ ValidFrame sampleOutput 3 3 ∧
    (∀ i, i < 3 * 3 → flatFrame.data[i]? = some 77) ∧
    ∃ out,
      Java_com_edgedetection_MainActivity_processFrame
          flatFrame ((3 : Nat) : Int) ((3 : Nat) : Int) sampleOutput 1
        = some out ∧
      ∀ x y, Interior 3 3 x y →
        gxAt flatFrame.data ((3 : Nat) : Int) (x : Int) (y : Int) = some 0 ∧
        gyAt flatFrame.data ((3 : Nat) : Int) (x : Int) (y : Int) = some 0 ∧
        out[y * 3 + x]? = some 0 :=
  ⟨by decide, by decide, by decide,
    c6_flat_frame_gives_zero flatFrame sampleOutput 3 3 77 (by decide) (by decide)
      (by decide)⟩

theorem interiorIdx_eq_nil (W H : Nat) (h : W ≤ 2 ∨ H ≤ 2) : interiorIdx W H = [] := by
  apply List.eq_nil_iff_forall_not_mem.mpr
  intro i hm
  obtain ⟨x, y, ⟨hx1, hx2, hy1, hy2⟩, _⟩ := (mem_interiorIdx W H i).mp hm
  omega

/-- C7. In EdgeDetect mode, for every valid frame with `width <= 2` or
`height <= 2`, one of the two loops makes no iteration (so the loop body never
runs), the call returns, the whole output frame equals the input frame, and
the result is the one of PassThrough (mode 0). -/
theorem c7_no_interior_is_passthrough (input output : JByteArray) (W H : Nat)
    (hin : ValidFrame input W H) (hout : ValidFrame output W H)
    (hsmall : W ≤ 2 ∨ H ≤ 2) :
    ((sub32 (H : Int) 1 - 1).toNat = 0 ∨ (sub32 (W : Int) 1 - 1).toNat = 0) ∧
    Java_com_edgedetection_MainActivity_processFrame input (W : Int) (H : Int) output 1
      = some input.data ∧
    Java_com_edgedetection_MainActivity_processFrame input (W : Int) (H : Int) output 1
      = Java_com_edgedetection_MainActivity_processFrame input (W : Int) (H : Int) output 0 := by
  have hlen := input.size_lt
  have hsz := hin.2.2
  have hWH : W * H < 2147483648 := by omega
  obtain ⟨hWlt, hHlt⟩ := dims_lt W H hin.1 hin.2.1 hWH
  have hedge : Java_com_edgedetection_MainActivity_processFrame input (W : Int) (H : Int) output 1
    = some input.data := by
    rw [processFrame_edge input output W H hin hout, interiorIdx_eq_nil W H hsmall]
    rfl
  refine ⟨?_, hedge, ?_⟩
  · rw [innerCount_cast H hin.2.1 hHlt, innerCount_cast W hin.1 hWlt]
    omega
  · rw [hedge, processFrame_pass input output W H 0 (by decide) hin hout]

/-- Witness of C7 on a frame of width 2 and height 3. -/
theorem c7_no_interior_is_passthrough_witness :
    ValidFrame narrowFrame 2 3 ∧ ValidFrame narrowOutput 2 3 ∧ ((2 : Nat) ≤ 2 ∨ 3 ≤ 2) ∧
    (((sub32 ((3 : Nat) : Int) 1 - 1).toNat = 0
        ∨ (sub32 ((2 : Nat) : Int) 1 - 1).toNat = 0) ∧
      Java_com_edgedetection_MainActivity_processFrame
          narrowFrame ((2 : Nat) : Int) ((3 : Nat) : Int) narrowOutput 1
        = some narrowFrame.data ∧
      Java_com_edgedetection_MainActivity_processFrame
          narrowFrame ((2 : Nat) : Int) ((3 : Nat) : Int) narrowOutput 1
        = Java_com_edgedetection_MainActivity_processFrame
            narrowFrame ((2 : Nat) : Int) ((3 : Nat) : Int) narrowOutput 0) :=
  ⟨by decide, by decide, by decide,
    c7_no_interior_is_passthrough narrowFrame narrowOutput 2 3 (by decide) (by decide)
      (by decide)⟩

theorem specEdge_eq_sq (frame : List Byte) (W x y : Nat) :
    specEdge frame W x y
      = if 16641 ≤ specGx frame W x y * specGx frame W x y
          + specGy frame W x y * specGy frame W x y then 255 else 0 := by
  unfold specEdge
  by_cases h : 16641 ≤ specGx frame W x y * specGx frame W x y
      + specGy frame W x y * specGy frame W x y
  · rw [if_pos h, if_pos ((sqrt_gt_128_iff _).mpr (by omega))]
  · rw [if_neg h, if_neg (fun hc => h (by have := (sqrt_gt_128_iff _).mp hc; omega))]

theorem edgeAtIndex_eq_sq (frame : List Byte) (W : Nat) :
    edgeAtIndex frame W = edgeAtIndexSq frame W := by
  funext i
  unfold edgeAtIndex edgeAtIndexSq
  exact specEdge_eq_sq frame W _ _

theorem checker_same (frame : List Byte) (W H : Nat) (a b : Int)
    (hcb : Checkerboard frame W H a b) (x1 y1 x2 y2 : Nat) (hx1 : x1 < W) (hy1 : y1 < H)
    (hx2 : x2 < W) (hy2 : y2 < H) (hpar : (x1 + y1) % 2 = (x2 + y2) % 2) :
    lumaAt frame W x1 y1 = lumaAt frame W x2 y2 := by
  rw [hcb x1 hx1 y1 hy1, hcb x2 hx2 y2 hy2, hpar]

/-- C8, counterexample. On the 3x3 checkerboard frame (`255` where `x + y` is
even) the call returns with the interior pixel `(1, 1)` set to `0`, not `255`:
the neighbours of equal parity cancel in `gx` and in `gy`. -/
theorem c8_checkerboard_counterexample :
    ValidFrame checkerFrame 3 3 ∧ ValidFrame sampleOutput 3 3 ∧
    Checkerboard checkerFrame.data 3 3 255 0 ∧ Interior 3 3 1 1 ∧
    Java_com_edgedetection_MainActivity_processFrame checkerFrame 3 3 sampleOutput 1
      = some [255, 0, 255, 0, 0, 0, 255, 0, 255, 1, 2, 3, 4] ∧
    ¬ ([255, 0, 255, 0, 0, 0, 255, 0, 255, 1, 2, 3, 4] : List Byte)[1 * 3 + 1]?
        = some 255 := by
  decide

/-- C8, amended. In EdgeDetect mode, for every valid frame with
`width, height >= 3` whose luma plane is a checkerboard alternating 0 and 255
(either phase), the call returns and the output luma is `0` at every interior
pixel. -/
theorem c8_checkerboard_gives_zero (input output : JByteArray) (W H : Nat)
    (hin : ValidFrame input W H) (hout : ValidFrame output W H)
    (_hW : 3 ≤ W) (_hH : 3 ≤ H)
    (hcb : Checkerboard input.data W H 255 0 ∨ Checkerboard input.data W H 0 255) :
    ∃ out,
      Java_com_edgedetection_MainActivity_processFrame input (W : Int) (H : Int) output 1
        = some out ∧
      ∀ x y, Interior W H x y → out[y * W + x]? = some 0 := by
  refine ⟨_, processFrame_edge input output W H hin hout, ?_⟩
  intro x y hxy
  obtain ⟨hx1, hx2, hy1, hy2⟩ := hxy
  have key : ∀ a b : Int, Checkerboard input.data W H a b →
      specGx input.data W x y = 0 ∧ specGy input.data W x y = 0 := by
    intro a b h
    have e1 := checker_same _ W H a b h (x - 1) (y - 1) (x + 1) (y - 1)
      (by omega) (by omega) (by omega) (by omega) (by omega)
    have e2 := checker_same _ W H a b h (x - 1) y (x + 1) y
      (by omega) (by omega) (by omega) (by omega) (by omega)
    have e3 := checker_same _ W H a b h (x - 1) (y + 1) (x + 1) (y + 1)
      (by omega) (by omega) (by omega) (by omega) (by omega)
    have e4 := checker_same _ W H a b h (x - 1) (y - 1) (x - 1) (y + 1)
      (by omega) (by omega) (by omega) (by omega) (by omega)
    have e5 := checker_same _ W H a b h x (y - 1) x (y + 1)
      (by omega) (by omega) (by omega) (by omega) (by omega)
    unfold specGx specGy
    constructor <;> omega
  have hg : specGx input.data W x y = 0 ∧ specGy input.data W x y = 0 := by
    rcases hcb with h | h
    · exact key _ _ h
    · exact key _ _ h
  rw [interior_getElem? input W H x y hin ⟨hx1, hx2, hy1, hy2⟩,
    specEdge_eq_zero _ _ _ _ hg.1 hg.2]

/-- Witness of the amended C8 on the 3x3 checkerboard frame. -/
theorem c8_checkerboard_gives_zero_witness :
    ValidFrame checkerFrame 3 3 ∧ ValidFrame sampleOutput 3 3 ∧
    (Checkerboard checkerFrame.data 3 3 255 0 ∨ Checkerboard checkerFrame.data 3 3 0 255) ∧
    ∃ out,
      Java_com_edgedetection_MainActivity_processFrame
          checkerFrame ((3 : Nat) : Int) ((3 : Nat) : Int) sampleOutput 1
        = some out ∧
      ∀ x y, Interior 3 3 x y → out[y * 3 + x]? = some 0 :=
  ⟨by decide, by decide, by decide,
    c8_checkerboard_gives_zero checkerFrame sampleOutput 3 3 (by decide) (by decide)
      (by decide) (by decide) (by decide)⟩

/-- C9, counterexample. On the 4x4 frame with the bright column `x = 2` the
call returns with the interior pixels `(2, 1)` and `(2, 2)` (indices 6 and 10)
set to `0`, not `255`: the columns left and right of `x = 2` are both dark, so
`gx = 0` there, and `gy = 0` on vertical stripes. -/
theorem c9_bright_column_counterexample :
    ValidFrame columnFrame 4 4 ∧ ValidFrame columnOutput 4 4 ∧
    BrightColumn columnFrame.data ∧ Interior 4 4 2 1 ∧
    Java_com_edgedetection_MainActivity_processFrame columnFrame 4 4 columnOutput 1
      = some [0, 0, 255, 0, 0, 255, 0, 0, 0, 255, 0, 0, 0, 0, 255, 0,
          1, 2, 3, 4, 5, 6, 7, 8] ∧
    ¬ ([0, 0, 255, 0, 0, 255, 0, 0, 0, 255, 0, 0, 0, 0, 255, 0,
          1, 2, 3, 4, 5, 6, 7, 8] : List Byte)[1 * 4 + 2]? = some 255 := by
  refine ⟨by decide, by decide, by decide, by decide, ?_, by decide⟩
  have h := processFrame_edge columnFrame columnOutput 4 4 (by decide) (by decide)
  rw [edgeAtIndex_eq_sq] at h
  rw [show ((4 : Int)) = ((4 : Nat) : Int) from rfl, h]
  decide

/-- C9, amended. In EdgeDetect mode, for every 4x4 frame whose luma is `0`
except the column `x = 2` where it is `255`, the call returns and the output
luma is `255` at the interior pixels of the column `x = 1`, `(1,1)` and
`(1,2)`, and `0` at the interior pixels of the bright column `x = 2`, `(2,1)`
and `(2,2)`. -/
theorem c9_bright_column_edges (input output : JByteArray)
    (hin : ValidFrame input 4 4) (hout : ValidFrame output 4 4)
    (hcol : BrightColumn input.data) :
    ∃ out,
      Java_com_edgedetection_MainActivity_processFrame
          input ((4 : Nat) : Int) ((4 : Nat) : Int) output 1
        = some out ∧
      out[1 * 4 + 1]? = some 255 ∧ out[2 * 4 + 1]? = some 255 ∧
      out[1 * 4 + 2]? = some 0 ∧ out[2 * 4 + 2]? = some 0 := by
  refine ⟨_, processFrame_edge input output 4 4 hin hout, ?_⟩
  have hv : ∀ x y, x < 4 → y < 4 →
      lumaAt input.data 4 x y = if x = 2 then 255 else 0 :=
    fun x y hx hy => hcol x hx y hy
  have g11 : specGx input.data 4 1 1 = 1020 ∧ specGy input.data 4 1 1 = 0 := by
    unfold specGx specGy
    simp only [hv _ _ (by decide : 1 - 1 < 4) (by decide : 1 - 1 < 4),
      hv _ _ (by decide : 1 < 4) (by decide : 1 - 1 < 4),
      hv _ _ (by decide : 1 + 1 < 4) (by decide : 1 - 1 < 4),
      hv _ _ (by decide : 1 - 1 < 4) (by decide : 1 < 4),
      hv _ _ (by decide : 1 + 1 < 4) (by decide : 1 < 4),
      hv _ _ (by decide : 1 - 1 < 4) (by decide : 1 + 1 < 4),
      hv _ _ (by decide : 1 < 4) (by decide : 1 + 1 < 4),
      hv _ _ (by decide : 1 + 1 < 4) (by decide : 1 + 1 < 4)]
    decide
  have g12 : specGx input.data 4 1 2 = 1020 ∧ specGy input.data 4 1 2 = 0 := by
    unfold specGx specGy
    simp only [hv _ _ (by decide : 1 - 1 < 4) (by decide : 2 - 1 < 4),
      hv _ _ (by decide : 1 < 4) (by decide : 2 - 1 < 4),
      hv _ _ (by decide : 1 + 1 < 4) (by decide : 2 - 1 < 4),
      hv _ _ (by decide : 1 - 1 < 4) (by decide : 2 < 4),
      hv _ _ (by decide : 1 + 1 < 4) (by decide : 2 < 4),
      hv _ _ (by decide : 1 - 1 < 4) (by decide : 2 + 1 < 4),
      hv _ _ (by decide : 1 < 4) (by decide : 2 + 1 < 4),
      hv _ _ (by decide : 1 + 1 < 4) (by decide : 2 + 1 < 4)]
    decide
  have g21 : specGx input.data 4 2 1 = 0 ∧ specGy input.data 4 2 1 = 0 := by
    unfold specGx specGy
    simp only [hv _ _ (by decide : 2 - 1 < 4) (by decide : 1 - 1 < 4),
      hv _ _ (by decide : 2 < 4) (by decide : 1 - 1 < 4),
      hv _ _ (by decide : 2 + 1 < 4) (by decide : 1 - 1 < 4),
      hv _ _ (by decide : 2 - 1 < 4) (by decide : 1 < 4),
      hv _ _ (by decide : 2 + 1 < 4) (by decide : 1 < 4),
      hv _ _ (by decide : 2 - 1 < 4) (by decide : 1 + 1 < 4),
      hv _ _ (by decide : 2 < 4) (by decide : 1 + 1 < 4),
      hv _ _ (by decide : 2 + 1 < 4) (by decide : 1 + 1 < 4)]
    decide
  have g22 : specGx input.data 4 2 2 = 0 ∧ specGy input.data 4 2 2 = 0 := by
    unfold specGx specGy
    simp only [hv _ _ (by decide : 2 - 1 < 4) (by decide : 2 - 1 < 4),
      hv _ _ (by decide : 2 < 4) (by decide : 2 - 1 < 4),
      hv _ _ (by decide : 2 + 1 < 4) (by decide : 2 - 1 < 4),
      hv _ _ (by decide : 2 - 1 < 4) (by decide : 2 < 4),
      hv _ _ (by decide : 2 + 1 < 4) (by decide : 2 < 4),
      hv _ _ (by decide : 2 - 1 < 4) (by decide : 2 + 1 < 4),
      hv _ _ (by decide : 2 < 4) (by decide : 2 + 1 < 4),
      hv _ _ (by decide : 2 + 1 < 4) (by decide : 2 + 1 < 4)]
    decide
  refine ⟨?_, ?_, ?_, ?_⟩
  · rw [interior_getElem? input 4 4 1 1 hin (by decide), specEdge_eq_sq, g11.1, g11.2]
    rfl
  · rw [interior_getElem? input 4 4 1 2 hin (by decide), specEdge_eq_sq, g12.1, g12.2]
    rfl
  · rw [interior_getElem? input 4 4 2 1 hin (by decide),
      specEdge_eq_zero _ _ _ _ g21.1 g21.2]
  · rw [interior_getElem? input 4 4 2 2 hin (by decide),
      specEdge_eq_zero _ _ _ _ g22.1 g22.2]

/-- Witness of the amended C9 on the 4x4 bright-column frame. -/
theorem c9_bright_column_edges_witness :
    ValidFrame columnFrame 4 4 ∧ ValidFrame columnOutput 4 4 ∧
    BrightColumn columnFrame.data ∧
    ∃ out,
      Java_com_edgedetection_MainActivity_processFrame
          columnFrame ((4 : Nat) : Int) ((4 : Nat) : Int) columnOutput 1
        = some out ∧
      out[1 * 4 + 1]? = some 255 ∧ out[2 * 4 + 1]? = some 255 ∧
      out[1 * 4 + 2]? = some 0 ∧ out[2 * 4 + 2]? = some 0 :=
  ⟨by decide, by decide, by decide,
    c9_bright_column_edges columnFrame columnOutput (by decide) (by decide) (by decide)⟩

/-! ## Calls outside the caller contract -/

theorem memcpy_of_le (dst src : List Byte) (n : Int) (h0 : 0 ≤ n)
    (hs : n.toNat ≤ src.length) (hd : n.toNat ≤ dst.length) :
    memcpy dst src n = some (src.take n.toNat ++ dst.drop n.toNat) := by
  unfold memcpy
  rw [if_pos ⟨h0, hs, hd⟩]

theorem copied_length (dst src : List Byte) (k : Nat) (hs : k ≤ src.length)
    (hd : k ≤ dst.length) : (src.take k ++ dst.drop k).length = dst.length := by
  rw [List.length_append, List.length_take, List.length_drop]; omega

theorem copied_getElem?_lt (dst src : List Byte) (k i : Nat) (hs : k ≤ src.length)
    (hi : i < k) : (src.take k ++ dst.drop k)[i]? = src[i]? := by
  rw [List.getElem?_append_left (by rw [List.length_take]; omega),
    List.getElem?_take_of_lt hi]

theorem copied_getElem?_ge (dst src : List Byte) (k i : Nat) (hs : k ≤ src.length)
    (hi : k ≤ i) : (src.take k ++ dst.drop k)[i]? = dst[i]? := by
  have hl : (src.take k).length = k := by rw [List.length_take]; omega
  rw [List.getElem?_append_right (by omega), hl, List.getElem?_drop]
  congr 1; omega

theorem colLoop_zero (yData : List Byte) (w y x : Int) (output : List Byte) :
    colLoop yData w y 0 x output = some output := rfl

theorem rowLoop_of_no_columns (yData : List Byte) (w : Int)
    (hc : (sub32 w 1 - 1).toNat = 0) :
    ∀ (k : Nat) (y : Int) (output : List Byte),
      rowLoop yData w k y output = some output := by
  intro k
  induction k with
  | zero => intro y output; rfl
  | succ k ih =>
    intro y output
    show (colLoop yData w y (sub32 w 1 - 1).toNat 1 output).bind
      (rowLoop yData w k (y + 1)) = _
    rw [hc, colLoop_zero, Option.some_bind, ih]

theorem loop_count_pos (z : Int) (h : (sub32 z 1 - 1).toNat ≠ 0) :
    (3 ≤ z ∧ z < 2147483649) ∨ z ≤ -2147483648 ∨ 4294967296 ≤ z := by
  unfold sub32 wrap32 at h
  omega

theorem dims_of_loops (w h : Int)
    (hprod : -2147483648 ≤ w * h ∧ w * h < 2147483648)
    (hc : (sub32 w 1 - 1).toNat ≠ 0) (hr : (sub32 h 1 - 1).toNat ≠ 0) :
    3 ≤ w ∧ 3 ≤ h := by
  have hw := loop_count_pos w hc
  have hh := loop_count_pos h hr
  have hw3 : 3 ≤ w ∨ w ≤ -2147483648 := by omega
  have hh3 : 3 ≤ h ∨ h ≤ -2147483648 := by omega
  rcases hw3 with hw3 | hw3 <;> rcases hh3 with hh3 | hh3
  · exact ⟨hw3, hh3⟩
  · exfalso; nlinarith [mul_nonneg (by omega : (0 : Int) ≤ w - 3)
      (by omega : (0 : Int) ≤ -2147483648 - h)]
  · exfalso; nlinarith [mul_nonneg (by omega : (0 : Int) ≤ -2147483648 - w)
      (by omega : (0 : Int) ≤ h - 3)]
  · exfalso; nlinarith [mul_nonneg (by omega : (0 : Int) ≤ -2147483648 - w)
      (by omega : (0 : Int) ≤ -2147483648 - h)]

theorem frameBytes_exact (w h : Int)
    (hprod : -2147483648 ≤ w * h ∧ w * h < 2147483648) (hn : 0 ≤ frameBytes w h)
    (hpos : 0 ≤ w * h) : w * h ≤ frameBytes w h := by
  have e : mul32 w h = w * h := wrap32_of_range _ hprod.1 hprod.2
  have e2 : Int.tdiv (w * h) 2 = (w * h) / 2 := Int.tdiv_eq_ediv hpos (by decide)
  unfold frameBytes at hn ⊢
  rw [e, e2] at hn ⊢
  unfold add32 at hn ⊢
  generalize w * h = p at *
  by_cases hlt : p + p / 2 < 2147483648
  · rw [wrap32_of_range _ (by omega) hlt]; omega
  · exfalso
    have hneg : wrap32 (p + p / 2) = p + p / 2 - 4294967296 := by
      unfold wrap32; omega
    omega

/-- The edge-detection branch on any call that stays inside its buffers: the
copy, then writes at luma indices only. -/
theorem processFrame_edge_any (input output : JByteArray) (w h : Int)
    (hprod : -2147483648 ≤ w * h ∧ w * h < 2147483648) (hn : 0 ≤ frameBytes w h)
    (hi : (frameBytes w h).toNat ≤ input.data.length)
    (ho : (frameBytes w h).toNat ≤ output.data.length) :
    ∃ js : List Nat, (∀ j ∈ js, j < (frameBytes w h).toNat) ∧
      Java_com_edgedetection_MainActivity_processFrame input w h output 1
        = some (paint (edgeAtIndex input.data w.toNat) js
            (input.data.take (frameBytes w h).toNat
              ++ output.data.drop (frameBytes w h).toNat)) := by
  have hcopy := memcpy_of_le output.data input.data (frameBytes w h) hn hi ho
  have hproc : Java_com_edgedetection_MainActivity_processFrame input w h output 1
      = (memcpy output.data input.data (frameBytes w h)).bind
          (rowLoop input.data w (sub32 h 1 - 1).toNat 1) := by
    unfold Java_com_edgedetection_MainActivity_processFrame frameBytes
    rw [if_pos rfl]
  rw [hproc, hcopy, Option.some_bind]
  by_cases hc : (sub32 w 1 - 1).toNat = 0
  · exact ⟨[], fun j hj => absurd hj (List.not_mem_nil j),
      rowLoop_of_no_columns input.data w hc _ _ _⟩
  · by_cases hr : (sub32 h 1 - 1).toNat = 0
    · exact ⟨[], fun j hj => absurd hj (List.not_mem_nil j), by rw [hr]; rfl⟩
    · obtain ⟨hw3, hh3⟩ := dims_of_loops w h hprod hc hr
      have hpos : 0 ≤ w * h := mul_nonneg (by omega) (by omega)
      have hle := frameBytes_exact w h hprod hn hpos
      lift w to Nat using (by omega) with W
      lift h to Nat using (by omega) with H
      have hWH : W * H < 2147483648 := by
        have := hprod.2; exact_mod_cast this
      have hleN : W * H ≤ (frameBytes (W : Int) (H : Int)).toNat := by
        have : ((W * H : Nat) : Int) ≤ frameBytes (W : Int) (H : Int) := by
          push_cast; exact hle
        omega
      obtain ⟨_, hHlt⟩ := dims_lt W H (by omega) (by omega) hWH
      have hrows : (sub32 (H : Int) 1 - 1).toNat = H - 2 :=
        innerCount_cast H (by omega) hHlt
      have hrow := rowLoop_interior input.data W H (by omega) hWH (by omega) (H - 2) 1
        (input.data.take (frameBytes (W : Int) (H : Int)).toNat
          ++ output.data.drop (frameBytes (W : Int) (H : Int)).toNat)
        (le_refl 1) (by omega) (by rw [copied_length _ _ _ hi ho]; omega)
      rw [Nat.cast_one] at hrow
      refine ⟨interiorIdx W H, ?_, ?_⟩
      · intro j hj
        by_contra hge
        exact not_mem_interiorIdx_of_le W H j (by omega) hj
      · rw [hrows, hrow, Int.toNat_ofNat]
        rfl

theorem specEdge_binary (frame : List Byte) (W x y : Nat) :
    specEdge frame W x y = 0 ∨ specEdge frame W x y = 255 := by
  unfold specEdge
  split
  · exact Or.inr rfl
  · exact Or.inl rfl

/-- C10, counterexample. A call with `width = 1`, `height = 2` and two
buffers of 4 bytes instead of 3 violates the caller contract; the source
reports nothing, returns normally in both modes and has overwritten the first
3 bytes of the output buffer. -/
theorem c10_contract_violation_counterexample :
    ContractViolated longInput 1 2 longOutput ∧
    longOutput.data = [0, 0, 0, 0] ∧
    Java_com_edgedetection_MainActivity_processFrame longInput 1 2 longOutput 0
      = some [1, 2, 3, 0] ∧
    Java_com_edgedetection_MainActivity_processFrame longInput 1 2 longOutput 1
      = some [1, 2, 3, 0] ∧
    ([1, 2, 3, 0] : List Byte) ≠ longOutput.data := by
  decide

/-- C10, amended. The source validates nothing and has no error result: for
every call in which the caller contract is violated, but `width*height` fits a
32-bit `int` and both buffers hold at least the `n = ySize + ySize/2 >= 0`
bytes that are copied, the call returns normally and has written the output
buffer: only the bytes from index `n` on are left unchanged, and each of the
first `n` bytes is overwritten, with the input byte at the same index in the
modes other than 1, and with that input byte or a mask value 0 or 255 in
mode 1. -/
theorem c10_violation_is_not_rejected (input output : JByteArray) (w h mode : Int)
    (_hviol : ContractViolated input w h output)
    (hprod : -2147483648 ≤ w * h ∧ w * h < 2147483648) (hn : 0 ≤ frameBytes w h)
    (hi : (frameBytes w h).toNat ≤ input.data.length)
    (ho : (frameBytes w h).toNat ≤ output.data.length) :
    ∃ out, Java_com_edgedetection_MainActivity_processFrame input w h output mode = some out ∧
      out.length = output.data.length ∧
      (∀ i, (frameBytes w h).toNat ≤ i → out[i]? = output.data[i]?) ∧
      (mode ≠ 1 → ∀ i, i < (frameBytes w h).toNat → out[i]? = input.data[i]?) ∧
      (mode = 1 → ∀ i, i < (frameBytes w h).toNat →
        out[i]? = input.data[i]? ∨ out[i]? = some 0 ∨ out[i]? = some 255) := by
  by_cases hmode : mode = 1
  · subst hmode
    obtain ⟨js, hjs, hproc⟩ := processFrame_edge_any input output w h hprod hn hi ho
    refine ⟨_, hproc, ?_, ?_, fun hne => absurd rfl hne, ?_⟩
    · rw [paint_length, copied_length _ _ _ hi ho]
    · intro i hge
      rw [paint_getElem?_of_not_mem _ _ _ i (fun hm => by have := hjs i hm; omega),
        copied_getElem?_ge _ _ _ _ hi hge]
    · intro _ i hlt
      by_cases hm : i ∈ js
      · right
        rw [paint_getElem?_of_mem _ _ _ i hm (by rw [copied_length _ _ _ hi ho]; omega)]
        unfold edgeAtIndex
        rcases specEdge_binary input.data w.toNat (i % w.toNat) (i / w.toNat) with e | e
        · exact Or.inl (by rw [e])
        · exact Or.inr (by rw [e])
      · left
        rw [paint_getElem?_of_not_mem _ _ _ i hm, copied_getElem?_lt _ _ _ _ hi hlt]
  · have hproc : Java_com_edgedetection_MainActivity_processFrame input w h output mode
        = memcpy output.data input.data (frameBytes w h) := by
      unfold Java_com_edgedetection_MainActivity_processFrame frameBytes
      rw [if_neg hmode]
    rw [hproc, memcpy_of_le _ _ _ hn hi ho]
    refine ⟨_, rfl, copied_length _ _ _ hi ho, ?_, ?_, fun he => absurd he hmode⟩
    · intro i hge
      exact copied_getElem?_ge _ _ _ _ hi hge
    · intro _ i hlt
      exact copied_getElem?_lt _ _ _ _ hi hlt

/-- Witness of the amended C10 on the call of the counterexample. -/
theorem c10_violation_is_not_rejected_witness :
    ContractViolated longInput 1 2 longOutput ∧
    (-2147483648 ≤ (1 : Int) * 2 ∧ (1 : Int) * 2 < 2147483648) ∧
    0 ≤ frameBytes 1 2 ∧
    (frameBytes 1 2).toNat ≤ longInput.data.length ∧
    (frameBytes 1 2).toNat ≤ longOutput.data.length ∧
    ∃ out,
      Java_com_edgedetection_MainActivity_processFrame longInput 1 2 longOutput 0
        = some out ∧
      out.length = longOutput.data.length ∧
      (∀ i, (frameBytes 1 2).toNat ≤ i → out[i]? = longOutput.data[i]?) ∧
      ((0 : Int) ≠ 1 → ∀ i, i < (frameBytes 1 2).toNat → out[i]? = longInput.data[i]?) ∧
      ((0 : Int) = 1 → ∀ i, i < (frameBytes 1 2).toNat →
        out[i]? = longInput.data[i]? ∨ out[i]? = some 0 ∨ out[i]? = some 255) :=
  ⟨by decide, by decide, by decide, by decide, by decide,
    c10_violation_is_not_rejected longInput longOutput 1 2 0
      (by decide) (by decide) (by decide) (by decide) (by decide)⟩

/-- C11, counterexample. A call with the unrecognized mode 2 on a valid 3x3
frame is not rejected: it returns normally and the output buffer has been
overwritten with the input frame. -/
theorem c11_unsupported_mode_counterexample :
    (2 : Int) ≠ 0 ∧ (2 : Int) ≠ 1 ∧
    ValidFrame sampleFrame 3 3 ∧ ValidFrame sampleOutput 3 3 ∧
    sampleOutput.data = [9, 9, 9, 9, 9, 9, 9, 9, 9, 9, 9, 9, 9] ∧
    Java_com_edgedetection_MainActivity_processFrame sampleFrame 3 3 sampleOutput 2
      = some [10, 20, 30, 40, 50, 60, 200, 210, 220, 1, 2, 3, 4] ∧
    ([10, 20, 30, 40, 50, 60, 200, 210, 220, 1, 2, 3, 4] : List Byte)
      ≠ sampleOutput.data := by
  decide

/-- C11, amended. The source recognizes mode 1 only and has no rejection: for
every mode value other than 0 and 1, on valid frames, the call returns
normally, the output buffer holds the input frame byte for byte, and the
result is the one of PassThrough (mode 0). -/
theorem c11_unrecognized_mode_is_passthrough (input output : JByteArray) (W H : Nat)
    (mode : Int) (_hm0 : mode ≠ 0) (hm1 : mode ≠ 1) (hin : ValidFrame input W H)
    (hout : ValidFrame output W H) :
    Java_com_edgedetection_MainActivity_processFrame input (W : Int) (H : Int) output mode
      = some input.data ∧
    Java_com_edgedetection_MainActivity_processFrame input (W : Int) (H : Int) output mode
      = Java_com_edgedetection_MainActivity_processFrame input (W : Int) (H : Int) output 0 := by
  have h := processFrame_pass input output W H mode hm1 hin hout
  exact ⟨h, by rw [h, processFrame_pass input output W H 0 (by decide) hin hout]⟩

/-- Witness of the amended C11 on a 3x3 frame with mode 2. -/
theorem c11_unrecognized_mode_is_passthrough_witness :
    (2 : Int) ≠ 0 ∧ (2 : Int) ≠ 1 ∧
    ValidFrame sampleFrame 3 3 ∧ ValidFrame sampleOutput 3 3 ∧
    (Java_com_edgedetection_MainActivity_processFrame
          sampleFrame ((3 : Nat) : Int) ((3 : Nat) : Int) sampleOutput 2
        = some sampleFrame.data ∧
      Java_com_edgedetection_MainActivity_processFrame
          sampleFrame ((3 : Nat) : Int) ((3 : Nat) : Int) sampleOutput 2
        = Java_com_edgedetection_MainActivity_processFrame
          sampleFrame ((3 : Nat) : Int) ((3 : Nat) : Int) sampleOutput 0) :=
  ⟨by decide, by decide, by decide, by decide,
    c11_unrecognized_mode_is_passthrough sampleFrame sampleOutput 3 3 2
      (by decide) (by decide) (by decide) (by decide)⟩

/-! ## Bounds of the buffer accesses -/

theorem neighbour_cast (n : Nat) (d : Int) (hd : d = -1 ∨ d = 0 ∨ d = 1) (h1 : 1 ≤ n)
    (h2 : n + 1 < 2147483648) :
    ∃ m : Nat, wrap32 ((n : Int) + d) = (m : Int) ∧ (m : Int) = (n : Int) + d := by
  refine ⟨((n : Int) + d).toNat, ?_, ?_⟩
  · rw [wrap32_of_range _ (by omega) (by omega)]; omega
  · omega

theorem readU8_isSome (buf : List Byte) (n : Nat) (h : n < buf.length) :
    (readU8 buf (n : Int)).isSome = true := by
  rw [readU8_cast buf n h]; rfl

/-- C12. For every call with `width, height > 0` and input and output buffers
of exactly `width*height*3/2` bytes (a count that fits a 32-bit `int`, as the
length of a Java array does), in either mode the call never leaves a buffer:
the checked embedding returns a result, the `memcpy` count is the length of
both buffers, and for every interior `(x, y)` and `dx, dy` in `{-1, 0, 1}` the
index `(y+dy)*width + (x+dx)` is computed without wrap-around, lies in
`[0, width*height)`, is readable in the input and writable in an output of
that length. -/
theorem c12_accesses_stay_in_bounds (input output : JByteArray) (W H : Nat) (mode : Int)
    (hin : ValidFrame input W H) (hout : ValidFrame output W H) :
    (∃ out,
      Java_com_edgedetection_MainActivity_processFrame input (W : Int) (H : Int) output mode
        = some out) ∧
    frameBytes (W : Int) (H : Int) = ((W * H * 3 / 2 : Nat) : Int) ∧
    input.data.length = W * H * 3 / 2 ∧ output.data.length = W * H * 3 / 2 ∧
    W * H ≤ W * H * 3 / 2 ∧
    ∀ x y, Interior W H x y → ∀ dx dy : Int,
      (dx = -1 ∨ dx = 0 ∨ dx = 1) → (dy = -1 ∨ dy = 0 ∨ dy = 1) →
        cell32 (W : Int) (wrap32 ((y : Int) + dy)) (wrap32 ((x : Int) + dx))
          = ((y : Int) + dy) * (W : Int) + ((x : Int) + dx) ∧
        0 ≤ ((y : Int) + dy) * (W : Int) + ((x : Int) + dx) ∧
        ((y : Int) + dy) * (W : Int) + ((x : Int) + dx) < (W : Int) * (H : Int) ∧
        (readU8 input.data
          (cell32 (W : Int) (wrap32 ((y : Int) + dy)) (wrap32 ((x : Int) + dx)))).isSome
          = true ∧
        ∀ v : Byte, (writeU8 output.data
          (cell32 (W : Int) (wrap32 ((y : Int) + dy)) (wrap32 ((x : Int) + dx))) v).isSome
          = true := by
  have hlen := input.size_lt
  have hsz := hin.2.2
  have hn : W * H * 3 / 2 < 2147483648 := by omega
  have hWH : W * H < 2147483648 := by omega
  obtain ⟨hWlt, hHlt⟩ := dims_lt W H hin.1 hin.2.1 hWH
  have hrd : ∀ k, k < W * H → k < input.data.length := fun k hk => by omega
  have hwr : ∀ k, k < W * H → k < output.data.length := fun k hk => by
    have := hout.2.2; omega
  refine ⟨?_, frameBytes_cast W H hn, hsz, hout.2.2, by omega, ?_⟩
  · by_cases hmode : mode = 1
    · subst hmode
      exact ⟨_, processFrame_edge input output W H hin hout⟩
    · exact ⟨_, processFrame_pass input output W H mode hmode hin hout⟩
  · intro x y ⟨hx1, hx2, hy1, hy2⟩ dx dy hdx hdy
    obtain ⟨mx, ex, ex2⟩ := neighbour_cast x dx hdx hx1 (by omega)
    obtain ⟨my, ey, ey2⟩ := neighbour_cast y dy hdy hy1 (by omega)
    have hmx : mx < W := by omega
    have hmy : my < H := by omega
    have hlt := cell_lt W H my mx hmx hmy
    have hc := cell32_cast W H my mx hmx hmy hWH
    rw [ex, ey, hc, ← ex2, ← ey2]
    have hlt2 : ((my * W + mx : Nat) : Int) < ((W * H : Nat) : Int) := by exact_mod_cast hlt
    have hpc : ((my * W + mx : Nat) : Int) = (my : Int) * (W : Int) + (mx : Int) := by
      push_cast; rfl
    have hpc2 : ((W * H : Nat) : Int) = (W : Int) * (H : Int) := by push_cast; rfl
    refine ⟨hpc, ?_, ?_, ?_, ?_⟩
    · rw [← hpc]; exact Int.ofNat_nonneg _
    · rw [← hpc, ← hpc2]; exact hlt2
    · exact readU8_isSome _ _ (hrd _ hlt)
    · intro v
      rw [writeU8_cast _ _ _ (hwr _ hlt)]
      rfl

/-- Witness of C12 on a 3x3 frame in mode 1. -/
theorem c12_accesses_stay_in_bounds_witness :
    ValidFrame sampleFrame 3 3 ∧ ValidFrame sampleOutput 3 3 ∧
    ((∃ out,
      Java_com_edgedetection_MainActivity_processFrame
          sampleFrame ((3 : Nat) : Int) ((3 : Nat) : Int) sampleOutput 1
        = some out) ∧
    frameBytes ((3 : Nat) : Int) ((3 : Nat) : Int) = ((3 * 3 * 3 / 2 : Nat) : Int) ∧
    sampleFrame.data.length = 3 * 3 * 3 / 2 ∧ sampleOutput.data.length = 3 * 3 * 3 / 2 ∧
    3 * 3 ≤ 3 * 3 * 3 / 2 ∧
    ∀ x y, Interior 3 3 x y → ∀ dx dy : Int,
      (dx = -1 ∨ dx = 0 ∨ dx = 1) → (dy = -1 ∨ dy = 0 ∨ dy = 1) →
        cell32 ((3 : Nat) : Int) (wrap32 ((y : Int) + dy)) (wrap32 ((x : Int) + dx))
          = ((y : Int) + dy) * ((3 : Nat) : Int) + ((x : Int) + dx) ∧
        0 ≤ ((y : Int) + dy) * ((3 : Nat) : Int) + ((x : Int) + dx) ∧
        ((y : Int) + dy) * ((3 : Nat) : Int) + ((x : Int) + dx)
          < ((3 : Nat) : Int) * ((3 : Nat) : Int) ∧
        (readU8 sampleFrame.data
          (cell32 ((3 : Nat) : Int) (wrap32 ((y : Int) + dy)) (wrap32 ((x : Int) + dx)))).isSome
          = true ∧
        ∀ v : Byte, (writeU8 sampleOutput.data
          (cell32 ((3 : Nat) : Int) (wrap32 ((y : Int) + dy)) (wrap32 ((x : Int) + dx)))
          v).isSome = true) :=
  ⟨by decide, by decide,
    c12_accesses_stay_in_bounds sampleFrame sampleOutput 3 3 1 (by decide) (by decide)⟩

/-! ## Order of the scan -/

theorem paint_perm (f : Nat → Byte) (js ks : List Nat) (out : List Byte)
    (h : js.Perm ks) : paint f js out = paint f ks out := by
  apply List.ext_getElem?
  intro i
  by_cases hm : i ∈ js
  · have hm2 : i ∈ ks := h.mem_iff.mp hm
    by_cases hi : i < out.length
    · rw [paint_getElem?_of_mem f js out i hm hi, paint_getElem?_of_mem f ks out i hm2 hi]
    · rw [List.getElem?_eq_none (by rw [paint_length]; omega),
        List.getElem?_eq_none (by rw [paint_length]; omega)]
  · have hm2 : i ∉ ks := fun hk => hm (h.mem_iff.mpr hk)
    rw [paint_getElem?_of_not_mem f js out i hm, paint_getElem?_of_not_mem f ks out i hm2]

theorem mem_rowMajor (W H : Nat) (p : Nat × Nat) :
    p ∈ rowMajor W H ↔ Interior W H p.1 p.2 := by
  unfold rowMajor Interior
  simp only [List.mem_flatMap, List.mem_map, List.mem_range'_1]
  constructor
  · rintro ⟨y, ⟨hy1, hy2⟩, x, ⟨hx1, hx2⟩, rfl⟩
    exact ⟨hx1, by omega, hy1, by omega⟩
  · rintro ⟨hx1, hx2, hy1, hy2⟩
    exact ⟨p.2, ⟨hy1, by omega⟩, p.1, ⟨hx1, by omega⟩, rfl⟩

theorem rowMajor_map_idx (W H : Nat) :
    (rowMajor W H).map (fun p => p.2 * W + p.1) = interiorIdx W H := by
  unfold rowMajor interiorIdx rowIdx
  rw [List.map_flatMap]
  simp only [List.map_map]
  rfl

theorem scanPixels_interior (yData : List Byte) (W H : Nat) (hWH : W * H < 2147483648)
    (hy : W * H ≤ yData.length) :
    ∀ (ps : List (Nat × Nat)) (output : List Byte),
      (∀ p ∈ ps, Interior W H p.1 p.2) → W * H ≤ output.length →
      scanPixels yData (W : Int) ps output
        = some (paint (edgeAtIndex yData W) (ps.map (fun p => p.2 * W + p.1)) output) := by
  intro ps
  induction ps with
  | nil => intro output _ _; rfl
  | cons p ps ih =>
    intro output hps ho
    have hp : Interior W H p.1 p.2 := hps p (List.mem_cons_self _ _)
    show (pixelStep yData (W : Int) (p.1 : Int) (p.2 : Int) output).bind
      (scanPixels yData (W : Int) ps) = _
    rw [pixelStep_interior yData output W H p.1 p.2 hp hWH hy ho, Option.some_bind,
      ih _ (fun q hq => hps q (List.mem_cons_of_mem _ hq))
        (by rw [List.length_set]; exact ho),
      List.map_cons, ← edgeAtIndex_cell yData W p.1 p.2 (by unfold Interior at hp; omega)]
    rfl

/-- C13. In EdgeDetect mode, for every valid frame, running the loop body
over the interior pixels in any order (any permutation `ps` of the row-major
scan, each write applied to the output copy in turn) gives the result of the
source, whose own two loops are the row-major scan; the call returns. -/
theorem c13_scan_order_is_irrelevant (input output : JByteArray) (W H : Nat)
    (hin : ValidFrame input W H) (hout : ValidFrame output W H)
    (ps : List (Nat × Nat)) (hperm : ps.Perm (rowMajor W H)) :
    (memcpy output.data input.data (frameBytes (W : Int) (H : Int))).bind
        (scanPixels input.data (W : Int) ps)
      = Java_com_edgedetection_MainActivity_processFrame input (W : Int) (H : Int) output 1 ∧
    (memcpy output.data input.data (frameBytes (W : Int) (H : Int))).bind
        (scanPixels input.data (W : Int) (rowMajor W H))
      = Java_com_edgedetection_MainActivity_processFrame input (W : Int) (H : Int) output 1 ∧
    ∃ out,
      Java_com_edgedetection_MainActivity_processFrame input (W : Int) (H : Int) output 1
        = some out := by
  have hlen := input.size_lt
  have hsz := hin.2.2
  have hn : W * H * 3 / 2 < 2147483648 := by omega
  have hWH : W * H < 2147483648 := by omega
  have hle : W * H ≤ input.data.length := by omega
  have hcopy : memcpy output.data input.data (frameBytes (W : Int) (H : Int))
      = some input.data := by
    unfold frameBytes
    rw [frameBytes_cast W H hn]
    exact memcpy_whole _ _ _ hsz hout.2.2
  have hscan : ∀ qs : List (Nat × Nat), qs.Perm (rowMajor W H) →
      scanPixels input.data (W : Int) qs input.data
        = some (paint (edgeAtIndex input.data W) (interiorIdx W H) input.data) := by
    intro qs hq
    rw [scanPixels_interior input.data W H hWH hle qs input.data
      (fun p hp => (mem_rowMajor W H p).mp (hq.mem_iff.mp hp)) hle,
      paint_perm _ _ _ _ (hq.map (fun p => p.2 * W + p.1)), rowMajor_map_idx]
  have hproc := processFrame_edge input output W H hin hout
  rw [hcopy, Option.some_bind, Option.some_bind, hproc]
  exact ⟨hscan ps hperm, hscan _ (List.Perm.refl _), _, rfl⟩

/-- Witness of C13 on the 4x4 bright-column frame, scanned from the last
interior pixel backwards. -/
theorem c13_scan_order_is_irrelevant_witness :
    ValidFrame columnFrame 4 4 ∧ ValidFrame columnOutput 4 4 ∧
    ([(2, 2), (1, 2), (2, 1), (1, 1)] : List (Nat × Nat)).Perm (rowMajor 4 4) ∧
    ((memcpy columnOutput.data columnFrame.data
          (frameBytes ((4 : Nat) : Int) ((4 : Nat) : Int))).bind
        (scanPixels columnFrame.data ((4 : Nat) : Int) [(2, 2), (1, 2), (2, 1), (1, 1)])
      = Java_com_edgedetection_MainActivity_processFrame
          columnFrame ((4 : Nat) : Int) ((4 : Nat) : Int) columnOutput 1 ∧
    (memcpy columnOutput.data columnFrame.data
          (frameBytes ((4 : Nat) : Int) ((4 : Nat) : Int))).bind
        (scanPixels columnFrame.data ((4 : Nat) : Int) (rowMajor 4 4))
      = Java_com_edgedetection_MainActivity_processFrame
          columnFrame ((4 : Nat) : Int) ((4 : Nat) : Int) columnOutput 1 ∧
    ∃ out,
      Java_com_edgedetection_MainActivity_processFrame
          columnFrame ((4 : Nat) : Int) ((4 : Nat) : Int) columnOutput 1
        = some out) :=
  ⟨by decide, by decide, by decide,
    c13_scan_order_is_irrelevant columnFrame columnOutput 4 4 (by decide) (by decide)
      [(2, 2), (1, 2), (2, 1), (1, 1)] (by decide)⟩

/-! ## Range of the gradient arithmetic -/

theorem checked32_of_range (z : Int) (h1 : -2147483648 ≤ z) (h2 : z < 2147483648) :
    checked32 z = some z := by
  unfold checked32
  rw [if_pos ⟨h1, h2⟩]

theorem bind_checked32 (z : Int) (f : Int → Option Int) (h1 : -2147483648 ≤ z)
    (h2 : z < 2147483648) : (checked32 z).bind f = f z := by
  rw [checked32_of_range z h1 h2, Option.some_bind]

theorem sobelGxChecked_exact (tl tr ml mr bl br : Int)
    (h1 : 0 ≤ tl ∧ tl ≤ 255) (h2 : 0 ≤ tr ∧ tr ≤ 255) (h3 : 0 ≤ ml ∧ ml ≤ 255)
    (h4 : 0 ≤ mr ∧ mr ≤ 255) (h5 : 0 ≤ bl ∧ bl ≤ 255) (h6 : 0 ≤ br ∧ br ≤ 255) :
    sobelGxChecked tl tr ml mr bl br = some (- tl + tr - 2 * ml + 2 * mr - bl + br) := by
  unfold sobelGxChecked
  rw [bind_checked32 _ _ (by omega) (by omega), bind_checked32 _ _ (by omega) (by omega),
    bind_checked32 _ _ (by omega) (by omega), bind_checked32 _ _ (by omega) (by omega),
    bind_checked32 _ _ (by omega) (by omega), bind_checked32 _ _ (by omega) (by omega),
    bind_checked32 _ _ (by omega) (by omega), bind_checked32 _ _ (by omega) (by omega),
    bind_checked32 _ _ (by omega) (by omega), bind_checked32 _ _ (by omega) (by omega),
    checked32_of_range _ (by omega) (by omega)]
  congr 1
  omega

theorem sobelGyChecked_exact (tl tm tr bl bm br : Int)
    (h1 : 0 ≤ tl ∧ tl ≤ 255) (h2 : 0 ≤ tm ∧ tm ≤ 255) (h3 : 0 ≤ tr ∧ tr ≤ 255)
    (h4 : 0 ≤ bl ∧ bl ≤ 255) (h5 : 0 ≤ bm ∧ bm ≤ 255) (h6 : 0 ≤ br ∧ br ≤ 255) :
    sobelGyChecked tl tm tr bl bm br = some (- tl - 2 * tm - tr + bl + 2 * bm + br) := by
  unfold sobelGyChecked
  rw [bind_checked32 _ _ (by omega) (by omega), bind_checked32 _ _ (by omega) (by omega),
    bind_checked32 _ _ (by omega) (by omega), bind_checked32 _ _ (by omega) (by omega),
    bind_checked32 _ _ (by omega) (by omega), bind_checked32 _ _ (by omega) (by omega),
    bind_checked32 _ _ (by omega) (by omega), bind_checked32 _ _ (by omega) (by omega),
    bind_checked32 _ _ (by omega) (by omega), bind_checked32 _ _ (by omega) (by omega),
    checked32_of_range _ (by omega) (by omega)]
  congr 1
  omega

theorem sumSqChecked_exact (gx gy : Int) (hx : -1020 ≤ gx ∧ gx ≤ 1020)
    (hy : -1020 ≤ gy ∧ gy ≤ 1020) :
    sumSqChecked gx gy = some (gx * gx + gy * gy) := by
  have h1 := square_range gx hx
  have h2 := square_range gy hy
  unfold sumSqChecked
  rw [bind_checked32 (gx * gx) _ (by omega) (by omega),
    bind_checked32 (gy * gy) _ (by omega) (by omega),
    checked32_of_range _ (by omega) (by omega)]

/-- C14. For every 3x3 neighbourhood of luma samples each in `0..255`, the
Sobel sums satisfy `-1020 <= gx <= 1020` and `-1020 <= gy <= 1020`, hence
`0 <= gx*gx + gy*gy <= 2,080,800 < 2^31`; the evaluation of `gx`, `gy` and
`gx*gx + gy*gy` with every 32-bit operation checked for overflow succeeds, and
the 32-bit evaluation of the source equals the exact integer value. -/
theorem c14_gradient_arithmetic_never_wraps (tl tm tr ml mr bl bm br : Int)
    (h : ∀ v ∈ [tl, tm, tr, ml, mr, bl, bm, br], 0 ≤ v ∧ v ≤ 255) :
    (-1020 ≤ gxExact tl tr ml mr bl br ∧ gxExact tl tr ml mr bl br ≤ 1020) ∧
    (-1020 ≤ gyExact tl tm tr bl bm br ∧ gyExact tl tm tr bl bm br ≤ 1020) ∧
    (0 ≤ gxExact tl tr ml mr bl br * gxExact tl tr ml mr bl br
        + gyExact tl tm tr bl bm br * gyExact tl tm tr bl bm br
      ∧ gxExact tl tr ml mr bl br * gxExact tl tr ml mr bl br
        + gyExact tl tm tr bl bm br * gyExact tl tm tr bl bm br ≤ 2080800) ∧
    (2080800 : Int) < 2 ^ 31 ∧
    sobelGxChecked tl tr ml mr bl br = some (gxExact tl tr ml mr bl br) ∧
    sobelGyChecked tl tm tr bl bm br = some (gyExact tl tm tr bl bm br) ∧
    sumSqChecked (sobelGx tl tr ml mr bl br) (sobelGy tl tm tr bl bm br)
      = some (gxExact tl tr ml mr bl br * gxExact tl tr ml mr bl br
        + gyExact tl tm tr bl bm br * gyExact tl tm tr bl bm br) ∧
    sobelGx tl tr ml mr bl br = gxExact tl tr ml mr bl br ∧
    sobelGy tl tm tr bl bm br = gyExact tl tm tr bl bm br ∧
    add32 (mul32 (sobelGx tl tr ml mr bl br) (sobelGx tl tr ml mr bl br))
        (mul32 (sobelGy tl tm tr bl bm br) (sobelGy tl tm tr bl bm br))
      = gxExact tl tr ml mr bl br * gxExact tl tr ml mr bl br
        + gyExact tl tm tr bl bm br * gyExact tl tm tr bl bm br := by
  have h1 : 0 ≤ tl ∧ tl ≤ 255 := h tl (by simp)
  have h2 : 0 ≤ tm ∧ tm ≤ 255 := h tm (by simp)
  have h3 : 0 ≤ tr ∧ tr ≤ 255 := h tr (by simp)
  have h4 : 0 ≤ ml ∧ ml ≤ 255 := h ml (by simp)
  have h5 : 0 ≤ mr ∧ mr ≤ 255 := h mr (by simp)
  have h6 : 0 ≤ bl ∧ bl ≤ 255 := h bl (by simp)
  have h7 : 0 ≤ bm ∧ bm ≤ 255 := h bm (by simp)
  have h8 : 0 ≤ br ∧ br ≤ 255 := h br (by simp)
  have ex := sobelGx_exact tl tr ml mr bl br h1 h3 h4 h5 h6 h8
  have ey := sobelGy_exact tl tm tr bl bm br h1 h2 h3 h6 h7 h8
  unfold gxExact gyExact
  have rx : -1020 ≤ - tl + tr - 2 * ml + 2 * mr - bl + br
      ∧ - tl + tr - 2 * ml + 2 * mr - bl + br ≤ 1020 := by omega
  have ry : -1020 ≤ - tl - 2 * tm - tr + bl + 2 * bm + br
      ∧ - tl - 2 * tm - tr + bl + 2 * bm + br ≤ 1020 := by omega
  have sx := square_range _ rx
  have sy := square_range _ ry
  rw [ex, ey]
  exact ⟨rx, ry, ⟨by omega, by omega⟩, by norm_num,
    sobelGxChecked_exact tl tr ml mr bl br h1 h3 h4 h5 h6 h8,
    sobelGyChecked_exact tl tm tr bl bm br h1 h2 h3 h6 h7 h8,
    sumSqChecked_exact _ _ rx ry, rfl, rfl, sumsq32_exact _ _ rx ry⟩

/-- Witness of C14 on the neighbourhood with a dark top-left and a bright
bottom-right corner, where `gx = 1020` and `gy = 510`. -/
theorem c14_gradient_arithmetic_never_wraps_witness :
    (∀ v ∈ ([0, 0, 255, 0, 255, 0, 255, 255] : List Int), 0 ≤ v ∧ v ≤ 255) ∧
    ((-1020 ≤ gxExact 0 255 0 255 0 255 ∧ gxExact 0 255 0 255 0 255 ≤ 1020) ∧
    (-1020 ≤ gyExact 0 0 255 0 255 255 ∧ gyExact 0 0 255 0 255 255 ≤ 1020) ∧
    (0 ≤ gxExact 0 255 0 255 0 255 * gxExact 0 255 0 255 0 255
        + gyExact 0 0 255 0 255 255 * gyExact 0 0 255 0 255 255
      ∧ gxExact 0 255 0 255 0 255 * gxExact 0 255 0 255 0 255
        + gyExact 0 0 255 0 255 255 * gyExact 0 0 255 0 255 255 ≤ 2080800) ∧
    (2080800 : Int) < 2 ^ 31 ∧
    sobelGxChecked 0 255 0 255 0 255 = some (gxExact 0 255 0 255 0 255) ∧
    sobelGyChecked 0 0 255 0 255 255 = some (gyExact 0 0 255 0 255 255) ∧
    sumSqChecked (sobelGx 0 255 0 255 0 255) (sobelGy 0 0 255 0 255 255)
      = some (gxExact 0 255 0 255 0 255 * gxExact 0 255 0 255 0 255
        + gyExact 0 0 255 0 255 255 * gyExact 0 0 255 0 255 255) ∧
    sobelGx 0 255 0 255 0 255 = gxExact 0 255 0 255 0 255 ∧
    sobelGy 0 0 255 0 255 255 = gyExact 0 0 255 0 255 255 ∧
    add32 (mul32 (sobelGx 0 255 0 255 0 255) (sobelGx 0 255 0 255 0 255))
        (mul32 (sobelGy 0 0 255 0 255 255) (sobelGy 0 0 255 0 255 255))
      = gxExact 0 255 0 255 0 255 * gxExact 0 255 0 255 0 255
        + gyExact 0 0 255 0 255 255 * gyExact 0 0 255 0 255 255) :=
  ⟨by decide, c14_gradient_arithmetic_never_wraps 0 0 255 0 255 0 255 255 (by decide)⟩

theorem sumsq_core (s t u v : Int) (hs : -255 ≤ s ∧ s ≤ 255) (ht : -255 ≤ t ∧ t ≤ 255)
    (hu : -255 ≤ u ∧ u ≤ 255) (hv : -255 ≤ v ∧ v ≤ 255) :
    (s + t + 2 * u) * (s + t + 2 * u) + (s - t + 2 * v) * (s - t + 2 * v) ≤ 1300500 := by
  have hs2 : s * s ≤ 65025 := by nlinarith [hs.1, hs.2]
  have ht2 : t * t ≤ 65025 := by nlinarith [ht.1, ht.2]
  have hu2 : u * u ≤ 65025 := by nlinarith [hu.1, hu.2]
  have hv2 : v * v ≤ 65025 := by nlinarith [hv.1, hv.2]
  rcases le_total 0 (s + t) with h1 | h1 <;> rcases le_total 0 (s - t) with h2 | h2
  · nlinarith [mul_nonneg (by omega : (0 : Int) ≤ 255 - u) h1,
      mul_nonneg (by omega : (0 : Int) ≤ 255 - v) h2]
  · nlinarith [mul_nonneg (by omega : (0 : Int) ≤ 255 - u) h1,
      mul_nonneg (by omega : (0 : Int) ≤ 255 + v) (by omega : (0 : Int) ≤ t - s)]
  · nlinarith [mul_nonneg (by omega : (0 : Int) ≤ 255 + u) (by omega : (0 : Int) ≤ -(s + t)),
      mul_nonneg (by omega : (0 : Int) ≤ 255 - v) h2]
  · nlinarith [mul_nonneg (by omega : (0 : Int) ≤ 255 + u) (by omega : (0 : Int) ≤ -(s + t)),
      mul_nonneg (by omega : (0 : Int) ≤ 255 + v) (by omega : (0 : Int) ≤ t - s)]

theorem gradientSumSq_exact (tl tm tr ml mr bl bm br : Byte) :
    gradientSumSq tl tm tr ml mr bl bm br
      = (- (tl.val : Int) + tr.val - 2 * ml.val + 2 * mr.val - bl.val + br.val)
          * (- (tl.val : Int) + tr.val - 2 * ml.val + 2 * mr.val - bl.val + br.val)
        + (- (tl.val : Int) - 2 * tm.val - tr.val + bl.val + 2 * bm.val + br.val)
          * (- (tl.val : Int) - 2 * tm.val - tr.val + bl.val + 2 * bm.val + br.val) := by
  have h1 := tl.isLt
  have h2 := tm.isLt
  have h3 := tr.isLt
  have h4 := ml.isLt
  have h5 := mr.isLt
  have h6 := bl.isLt
  have h7 := bm.isLt
  have h8 := br.isLt
  unfold gradientSumSq
  rw [sobelGx_exact _ _ _ _ _ _ (by omega) (by omega) (by omega) (by omega) (by omega)
      (by omega),
    sobelGy_exact _ _ _ _ _ _ (by omega) (by omega) (by omega) (by omega) (by omega)
      (by omega)]
  exact sumsq32_exact _ _ (by omega) (by omega)

theorem gradientSumSq_le (tl tm tr ml mr bl bm br : Byte) :
    gradientSumSq tl tm tr ml mr bl bm br ≤ 1300500 := by
  have h1 := tl.isLt
  have h2 := tm.isLt
  have h3 := tr.isLt
  have h4 := ml.isLt
  have h5 := mr.isLt
  have h6 := bl.isLt
  have h7 := bm.isLt
  have h8 := br.isLt
  have hc := sumsq_core ((br.val : Int) - tl.val) ((tr.val : Int) - bl.val)
    ((mr.val : Int) - ml.val) ((bm.val : Int) - tm.val)
    (by omega) (by omega) (by omega) (by omega)
  rw [gradientSumSq_exact]
  have e1 : (- (tl.val : Int) + tr.val - 2 * ml.val + 2 * mr.val - bl.val + br.val)
      = ((br.val : Int) - tl.val) + ((tr.val : Int) - bl.val)
        + 2 * ((mr.val : Int) - ml.val) := by ring
  have e2 : (- (tl.val : Int) - 2 * tm.val - tr.val + bl.val + 2 * bm.val + br.val)
      = ((br.val : Int) - tl.val) - ((tr.val : Int) - bl.val)
        + 2 * ((bm.val : Int) - tm.val) := by ring
  rw [e1, e2]
  exact hc

/-- C15, counterexample. No 3x3 neighbourhood of bytes gives
`gx*gx + gy*gy = 2,080,800`, and none has `|gx| = 1020` together with
`|gy| = 1020`: the corner samples that `gx` needs at their extremes cancel in
`gy`. -/
theorem c15_sum_of_squares_counterexample :
    (¬ ∃ tl tm tr ml mr bl bm br : Byte,
      gradientSumSq tl tm tr ml mr bl bm br = 2080800) ∧
    (¬ ∃ tl tm tr ml mr bl bm br : Byte,
      (sobelGx tl.val tr.val ml.val mr.val bl.val br.val = 1020
        ∨ sobelGx tl.val tr.val ml.val mr.val bl.val br.val = -1020) ∧
      (sobelGy tl.val tm.val tr.val bl.val bm.val br.val = 1020
        ∨ sobelGy tl.val tm.val tr.val bl.val bm.val br.val = -1020)) := by
  constructor
  · rintro ⟨tl, tm, tr, ml, mr, bl, bm, br, h⟩
    have := gradientSumSq_le tl tm tr ml mr bl bm br
    omega
  · rintro ⟨tl, tm, tr, ml, mr, bl, bm, br, hx, hy⟩
    have hle := gradientSumSq_le tl tm tr ml mr bl bm br
    unfold gradientSumSq at hle
    rcases hx with hx | hx <;> rcases hy with hy | hy <;>
      · rw [hx, hy] at hle
        revert hle
        decide

/-- C15, amended. Over all 3x3 neighbourhoods of luma samples in `0..255` the
sum `gx*gx + gy*gy` computed by the kernel is at most
`1,300,500 = 1020*1020 + 510*510`, and it reaches that value, with `gx = 1020`
and `gy = 510`, on the neighbourhood `TL = TM = ML = BL = 0`,
`TR = MR = BM = BR = 255`. -/
theorem c15_sum_of_squares_maximum :
    (∀ tl tm tr ml mr bl bm br : Byte,
      gradientSumSq tl tm tr ml mr bl bm br ≤ 1300500) ∧
    gradientSumSq 0 0 255 0 255 0 255 255 = 1300500 ∧
    sobelGx (0 : Byte).val (255 : Byte).val (0 : Byte).val (255 : Byte).val
      (0 : Byte).val (255 : Byte).val = 1020 ∧
    sobelGy (0 : Byte).val (0 : Byte).val (255 : Byte).val (0 : Byte).val
      (255 : Byte).val (255 : Byte).val = 510 := by
  refine ⟨gradientSumSq_le, ?_, ?_, ?_⟩ <;> decide

/-! ## Size of the copy and the threshold test -/

/-- C16, counterexample. For `width = height = 40000` the product
`1,600,000,000` fits an `int`, but `ySize + ySize / 2` does not: the 32-bit
count is negative, not the frame size `2,400,000,000`. -/
theorem c16_copy_count_counterexample :
    (0 : Int) ≤ 40000 * 40000 ∧ mul32 40000 40000 = 40000 * 40000 ∧
    Int.tdiv (40000 * 40000 * 3) 2 = 2400000000 ∧
    frameBytes 40000 40000 = -1894967296 ∧
    frameBytes 40000 40000 ≠ Int.tdiv (40000 * 40000 * 3) 2 := by
  decide

/-- C16, amended. For every width and height with `width*height >= 0` whose
frame size `(width*height*3)/2` fits a 32-bit `int`, the count
`ySize + ySize / 2` that the source passes to `memcpy` in both modes equals
`(width*height*3)/2`, also when `width*height` is odd: it is the luma plane of
`width*height` bytes plus a chroma region of `width*height/2` bytes. -/
theorem c16_copy_count_is_frame_size (w h : Int) (hpos : 0 ≤ w * h)
    (hfit : Int.tdiv (w * h * 3) 2 < 2147483648) :
    frameBytes w h = Int.tdiv (w * h * 3) 2 ∧
    frameBytes w h = w * h + Int.tdiv (w * h) 2 ∧
    mul32 w h = w * h := by
  have e1 : Int.tdiv (w * h * 3) 2 = (w * h * 3) / 2 :=
    Int.tdiv_eq_ediv (by omega) (by decide)
  have e2 : Int.tdiv (w * h) 2 = (w * h) / 2 := Int.tdiv_eq_ediv hpos (by decide)
  rw [e1] at hfit ⊢
  rw [e2]
  have em : mul32 w h = w * h := wrap32_of_range _ (by omega) (by omega)
  have ef : frameBytes w h = w * h + (w * h) / 2 := by
    unfold frameBytes
    rw [em, e2]
    exact wrap32_of_range _ (by omega) (by omega)
  exact ⟨by rw [ef]; omega, ef, em⟩

/-- Witness of the amended C16 on `width = height = 3`, an odd product. -/
theorem c16_copy_count_is_frame_size_witness :
    (0 : Int) ≤ 3 * 3 ∧ Int.tdiv ((3 : Int) * 3 * 3) 2 < 2147483648 ∧
    (frameBytes 3 3 = Int.tdiv ((3 : Int) * 3 * 3) 2 ∧
      frameBytes 3 3 = (3 : Int) * 3 + Int.tdiv ((3 : Int) * 3) 2 ∧
      mul32 3 3 = (3 : Int) * 3) :=
  ⟨by decide, by decide, c16_copy_count_is_frame_size 3 3 (by decide) (by decide)⟩

theorem magnitude_gt_128_iff (s : Int) : magnitudeOf s > 128 ↔ 16641 ≤ s := by
  unfold magnitudeOf
  constructor
  · intro h
    have h2 : Nat.sqrt s.toNat > 128 := by exact_mod_cast h
    have := (sqrt_gt_128_iff _).mp h2
    omega
  · intro h
    have h2 : Nat.sqrt s.toNat > 128 := (sqrt_gt_128_iff _).mpr (by omega)
    exact_mod_cast h2

theorem threshold_eq_255_iff (m : Int) : threshold m = 255 ↔ m > 128 := by
  unfold threshold
  by_cases h : m > 128
  · rw [if_pos h]; exact ⟨fun _ => h, fun _ => rfl⟩
  · rw [if_neg h]; exact ⟨fun e => absurd e (by decide), fun e => absurd e h⟩

theorem specEdge_eq_255_iff (frame : List Byte) (W x y : Nat) :
    specEdge frame W x y = 255 ↔
      16641 ≤ specGx frame W x y * specGx frame W x y
        + specGy frame W x y * specGy frame W x y := by
  rw [specEdge_eq_sq]
  by_cases h : 16641 ≤ specGx frame W x y * specGx frame W x y
      + specGy frame W x y * specGy frame W x y
  · rw [if_pos h]; exact ⟨fun _ => h, fun _ => rfl⟩
  · rw [if_neg h]; exact ⟨fun e => absurd e (by decide), fun e => absurd e h⟩

/-- C17. The square root is not needed to decide the mask: for every 3x3
neighbourhood of bytes the test `(int)sqrt(gx*gx + gy*gy) > 128` of the
source holds if and only if `gx*gx + gy*gy >= 16641`, the byte of line 51 is
`255` exactly then, and on every valid frame the output luma of an interior
pixel is `255` exactly when the squared gradient magnitude there is at least
`16641`. -/
theorem c17_threshold_without_sqrt (tl tm tr ml mr bl bm br : Byte)
    (input output : JByteArray) (W H x y : Nat)
    (hin : ValidFrame input W H) (hout : ValidFrame output W H)
    (hxy : Interior W H x y) :
    (magnitudeOf (gradientSumSq tl tm tr ml mr bl bm br) > 128
      ↔ 16641 ≤ gradientSumSq tl tm tr ml mr bl bm br) ∧
    (threshold (magnitudeOf (gradientSumSq tl tm tr ml mr bl bm br)) = 255
      ↔ 16641 ≤ gradientSumSq tl tm tr ml mr bl bm br) ∧
    ∃ out,
      Java_com_edgedetection_MainActivity_processFrame input (W : Int) (H : Int) output 1
        = some out ∧
      (out[y * W + x]? = some 255 ↔
        16641 ≤ specGx input.data W x y * specGx input.data W x y
          + specGy input.data W x y * specGy input.data W x y) := by
  refine ⟨magnitude_gt_128_iff _, ?_, _, processFrame_edge input output W H hin hout, ?_⟩
  · rw [threshold_eq_255_iff]; exact magnitude_gt_128_iff _
  · rw [interior_getElem? input W H x y hin hxy, ← specEdge_eq_255_iff]
    exact ⟨fun e => Option.some.inj e, fun e => by rw [e]⟩

/-- Witness of C17 on a 3x3 frame and the neighbourhood of its interior pixel. -/
theorem c17_threshold_without_sqrt_witness :
    ValidFrame sampleFrame 3 3 ∧ ValidFrame sampleOutput 3 3 ∧ Interior 3 3 1 1 ∧
    ((magnitudeOf (gradientSumSq 10 20 30 40 60 200 210 220) > 128
      ↔ 16641 ≤ gradientSumSq 10 20 30 40 60 200 210 220) ∧
    (threshold (magnitudeOf (gradientSumSq 10 20 30 40 60 200 210 220)) = 255
      ↔ 16641 ≤ gradientSumSq 10 20 30 40 60 200 210 220) ∧
    ∃ out,
      Java_com_edgedetection_MainActivity_processFrame
          sampleFrame ((3 : Nat) : Int) ((3 : Nat) : Int) sampleOutput 1
        = some out ∧
      (out[1 * 3 + 1]? = some 255 ↔
        16641 ≤ specGx sampleFrame.data 3 1 1 * specGx sampleFrame.data 3 1 1
          + specGy sampleFrame.data 3 1 1 * specGy sampleFrame.data 3 1 1)) :=
  ⟨by decide, by decide, by decide,
    c17_threshold_without_sqrt 10 20 30 40 60 200 210 220 sampleFrame sampleOutput
      3 3 1 1 (by decide) (by decide) (by decide)⟩

/-! ## Locality and brightness shift -/

theorem specEdge_congr (f g : List Byte) (W x y : Nat)
    (hx : specGx f W x y = specGx g W x y) (hy : specGy f W x y = specGy g W x y) :
    specEdge f W x y = specEdge g W x y := by
  unfold specEdge
  rw [hx, hy]

/-- C18. Locality of the kernel: in EdgeDetect mode, if two valid input
frames of the same width and height agree on the eight neighbours of an
interior pixel `(x, y)`, both calls return and the two outputs have the same
luma at `(x, y)`, whatever the frames hold at `(x, y)` or anywhere else. -/
theorem c18_output_depends_on_neighbours_only (input1 input2 output1 output2 : JByteArray)
    (W H x y : Nat) (hin1 : ValidFrame input1 W H) (hin2 : ValidFrame input2 W H)
    (hout1 : ValidFrame output1 W H) (hout2 : ValidFrame output2 W H)
    (hxy : Interior W H x y) (hagree : AgreeAround input1.data input2.data W x y) :
    ∃ out1 out2,
      Java_com_edgedetection_MainActivity_processFrame input1 (W : Int) (H : Int) output1 1
        = some out1 ∧
      Java_com_edgedetection_MainActivity_processFrame input2 (W : Int) (H : Int) output2 1
        = some out2 ∧
      out1[y * W + x]? = out2[y * W + x]? := by
  obtain ⟨a1, a2, a3, a4, a5, a6, a7, a8⟩ := hagree
  refine ⟨_, _, processFrame_edge input1 output1 W H hin1 hout1,
    processFrame_edge input2 output2 W H hin2 hout2, ?_⟩
  rw [interior_getElem? input1 W H x y hin1 hxy, interior_getElem? input2 W H x y hin2 hxy]
  congr 1
  apply specEdge_congr
  · unfold specGx; rw [a1, a3, a4, a5, a6, a8]
  · unfold specGy; rw [a1, a2, a3, a6, a7, a8]

/-- Witness of C18 on two 3x3 frames that differ at the centre pixel and in
the chroma region. -/
theorem c18_output_depends_on_neighbours_only_witness :
    ValidFrame sampleFrame 3 3 ∧ ValidFrame sampleFrameAlt 3 3 ∧
    ValidFrame sampleOutput 3 3 ∧ Interior 3 3 1 1 ∧
    AgreeAround sampleFrame.data sampleFrameAlt.data 3 1 1 ∧
    sampleFrame.data[1 * 3 + 1]? ≠ sampleFrameAlt.data[1 * 3 + 1]? ∧
    ∃ out1 out2,
      Java_com_edgedetection_MainActivity_processFrame
          sampleFrame ((3 : Nat) : Int) ((3 : Nat) : Int) sampleOutput 1
        = some out1 ∧
      Java_com_edgedetection_MainActivity_processFrame
          sampleFrameAlt ((3 : Nat) : Int) ((3 : Nat) : Int) sampleOutput 1
        = some out2 ∧
      out1[1 * 3 + 1]? = out2[1 * 3 + 1]? :=
  ⟨by decide, by decide, by decide, by decide, by decide, by decide,
    c18_output_depends_on_neighbours_only sampleFrame sampleFrameAlt sampleOutput
      sampleOutput 3 3 1 1 (by decide) (by decide) (by decide) (by decide) (by decide)
      (by decide)⟩

theorem shiftLuma_length (c : Int) (n : Nat) (data : List Byte) :
    (shiftLuma c n data).length = data.length := by
  unfold shiftLuma
  rw [List.length_append, List.length_map, List.length_take, List.length_drop]
  omega

theorem shiftLuma_getElem?_lt (c : Int) (n : Nat) (data : List Byte) (i : Nat)
    (hi : i < n) (hl : i < data.length) :
    (shiftLuma c n data)[i]? = some (addToByte c (data.getD i 0)) := by
  unfold shiftLuma
  rw [List.getElem?_append_left (by rw [List.length_map, List.length_take]; omega),
    List.getElem?_map, List.getElem?_take_of_lt hi, List.getD_eq_getElem?_getD,
    List.getElem?_eq_getElem hl]
  rfl

theorem addToByte_val (c : Int) (v : Byte)
    (h : 0 ≤ (v.val : Int) + c ∧ (v.val : Int) + c ≤ 255) :
    ((addToByte c v).val : Int) = (v.val : Int) + c := by
  unfold addToByte
  show (((((v.val : Int) + c) % 256).toNat : Nat) : Int) = (v.val : Int) + c
  omega

theorem lumaAt_shiftLuma (c : Int) (data : List Byte) (W H x y : Nat) (hx : x < W)
    (hy : y < H) (hl : W * H ≤ data.length)
    (hrange : ∀ i, i < W * H →
      0 ≤ ((data.getD i 0).val : Int) + c ∧ ((data.getD i 0).val : Int) + c ≤ 255) :
    lumaAt (shiftLuma c (W * H) data) W x y = lumaAt data W x y + c := by
  have hlt := cell_lt W H y x hx hy
  unfold lumaAt
  rw [List.getD_eq_getElem?_getD (shiftLuma c (W * H) data),
    shiftLuma_getElem?_lt c (W * H) data _ hlt (by omega)]
  exact addToByte_val c _ (hrange _ hlt)

/-- C19. Brightness-shift invariance: in EdgeDetect mode, for every valid
frame and every integer `c` such that every luma sample `v` of the frame has
`0 <= v + c <= 255`, both calls return and adding `c` to every luma sample of
the input leaves the output luma at every interior pixel unchanged. -/
theorem c19_brightness_shift_invariance (input output : JByteArray) (W H : Nat) (c : Int)
    (hin : ValidFrame input W H) (hout : ValidFrame output W H)
    (hrange : ∀ i, i < W * H →
      0 ≤ ((input.data.getD i 0).val : Int) + c
        ∧ ((input.data.getD i 0).val : Int) + c ≤ 255) :
    ∃ out1 out2,
      Java_com_edgedetection_MainActivity_processFrame input (W : Int) (H : Int) output 1
        = some out1 ∧
      Java_com_edgedetection_MainActivity_processFrame
          (shiftFrame c (W * H) input) (W : Int) (H : Int) output 1
        = some out2 ∧
      ∀ x y, Interior W H x y → out2[y * W + x]? = out1[y * W + x]? := by
  have hsz := hin.2.2
  have hle : W * H ≤ input.data.length := by omega
  have hin2 : ValidFrame (shiftFrame c (W * H) input) W H :=
    ⟨hin.1, hin.2.1, by
      show (shiftLuma c (W * H) input.data).length = W * H * 3 / 2
      rw [shiftLuma_length]; exact hsz⟩
  have hl : ∀ x y, x < W → y < H →
      lumaAt (shiftFrame c (W * H) input).data W x y = lumaAt input.data W x y + c :=
    fun x y hx hy => lumaAt_shiftLuma c input.data W H x y hx hy hle hrange
  refine ⟨_, _, processFrame_edge input output W H hin hout,
    processFrame_edge (shiftFrame c (W * H) input) output W H hin2 hout, ?_⟩
  intro x y hxy
  rw [interior_getElem? input W H x y hin hxy,
    interior_getElem? (shiftFrame c (W * H) input) W H x y hin2 hxy]
  obtain ⟨hx1, hx2, hy1, hy2⟩ := hxy
  have l1 := hl (x - 1) (y - 1) (by omega) (by omega)
  have l2 := hl x (y - 1) (by omega) (by omega)
  have l3 := hl (x + 1) (y - 1) (by omega) (by omega)
  have l4 := hl (x - 1) y (by omega) (by omega)
  have l5 := hl (x + 1) y (by omega) (by omega)
  have l6 := hl (x - 1) (y + 1) (by omega) (by omega)
  have l7 := hl x (y + 1) (by omega) (by omega)
  have l8 := hl (x + 1) (y + 1) (by omega) (by omega)
  congr 1
  apply specEdge_congr
  · unfold specGx; rw [l1, l3, l4, l5, l6, l8]; ring
  · unfold specGy; rw [l1, l2, l3, l6, l7, l8]; ring

/-- Witness of C19 on a 3x3 frame brightened by 20. -/
theorem c19_brightness_shift_invariance_witness :
    ValidFrame sampleFrame 3 3 ∧ ValidFrame sampleOutput 3 3 ∧
    (∀ i, i < 3 * 3 →
      0 ≤ ((sampleFrame.data.getD i 0).val : Int) + 20
        ∧ ((sampleFrame.data.getD i 0).val : Int) + 20 ≤ 255) ∧
    ∃ out1 out2,
      Java_com_edgedetection_MainActivity_processFrame
          sampleFrame ((3 : Nat) : Int) ((3 : Nat) : Int) sampleOutput 1
        = some out1 ∧
      Java_com_edgedetection_MainActivity_processFrame
          (shiftFrame 20 (3 * 3) sampleFrame) ((3 : Nat) : Int) ((3 : Nat) : Int)
          sampleOutput 1
        = some out2 ∧
      ∀ x y, Interior 3 3 x y → out2[y * 3 + x]? = out1[y * 3 + x]? :=
  ⟨by decide, by decide, by decide,
    c19_brightness_shift_invariance sampleFrame sampleOutput 3 3 20 (by decide) (by decide)
      (by decide)⟩

end EdgeDetection
